import Mathlib

/-!
# fastimage: format detection and header-field extraction

A shallow embedding of `fastimagereader.go`.  Bytes are natural numbers
below 256, a stream is the list of its bytes, unsigned 32-bit fields are
natural numbers reduced modulo `2^32` where the source can overflow.
-/

set_option autoImplicit false

namespace FastImage

/-! ## Data model -/

/-- The format tag of a result record (`ImageType` in the package). -/
inductive ImageType
  | Unknown | JPEG | PNG | WEBP | GIF | BMP | PBM | PGM | PPM | BPM | XV
  | XBM | XPM | TIFF | PSD | MNG | RGB | RAS | PCX
  deriving DecidableEq, Repr

/-- The result record `Info`: the field `Type` of the source is `type` here. -/
structure Info where
  type : ImageType
  Width : Nat
  Height : Nat
  deriving DecidableEq, Repr

/-- The zero value of `Info`, what `(info Info)` holds on entry. -/
def Info.zero : Info := ⟨ImageType.Unknown, 0, 0⟩

/-- A seekable byte source: its bytes and the absolute read offset. -/
structure File where
  data : List Nat
  pos : Nat
  deriving DecidableEq, Repr

/-- A freshly opened stream over the given bytes. -/
def File.ofBytes (s : List Nat) : File := ⟨s, 0⟩

/-- What one call `file.Read(b)` with `len(b) = n` gives back. -/
structure ReadResult where
  bytes : List Nat
  err : Bool
  file : File

/-- The call `file.Read(b)` with `len(b) = n > 0`: the bytes available, at most `n`,
without an error on a stream that still has bytes, and an error at end of stream. -/
def File.Read (f : File) (n : Nat) : ReadResult :=
  let got := (f.data.drop f.pos).take n
  { bytes := got, err := decide (f.data.length ≤ f.pos), file := { f with pos := f.pos + got.length } }

/-- The call `file.Seek(off, 0)` with `off ≥ 0`: an absolute seek, which does not fail. -/
def File.Seek (f : File) (off : Nat) : File := { f with pos := off }

/-- The slice `p` after `copy(p[off:], got)`: what a read into `p[off:...]` leaves. -/
def blit (p : List Nat) (off : Nat) (got : List Nat) : List Nat :=
  p.take off ++ got ++ p.drop (off + got.length)

/-- The buffer `make([]byte, n)`. -/
def makeBytes (n : Nat) : List Nat := List.replicate n 0

/-- The byte `b[i]` of a buffer whose length is known to exceed `i`. -/
def at_ (b : List Nat) (i : Nat) : Nat := b.getD i 0

/-! ## JpegReader -/

/-- The `for` loop of `JpegReader`; at its head the file is positioned at offset `i`.
The buffer `b` is used only after a read that filled all 9 bytes of it. -/
def jpegLoop (data : List Nat) (i : Nat) (info : Info) : Info :=
  let r := (File.mk data i).Read 9
  let b := blit (makeBytes 9) 0 r.bytes
  if h : r.err = true ∨ r.bytes.length ≠ 9 then info
  else
    let length := at_ b 3 ||| (at_ b 2 <<< 8)
    let code := at_ b 1
    let marker := at_ b 0
    if marker ≠ 0xff then info
    else if 0xc0 ≤ code ∧ code ≤ 0xc3 then
      { type := ImageType.JPEG
        Width := at_ b 8 ||| (at_ b 7 <<< 8)
        Height := at_ b 6 ||| (at_ b 5 <<< 8) }
    else jpegLoop data (i + (2 + length)) info
termination_by data.length - i
decreasing_by
  have h2 : ¬ (decide (data.length ≤ i) = true) ∧ ((data.drop i).take 9).length = 9 := by
    simpa only [not_or, ne_eq, Decidable.not_not] using h
  simp only [decide_eq_true_eq, List.length_take, List.length_drop] at h2
  omega

/-- The function `JpegReader`: seek to offset 2, then walk the segments. -/
def JpegReader (file : File) (info : Info) : Info :=
  jpegLoop (file.Seek 2).data 2 info

/-! ## The scanner over a buffered reader

A `bufio.Reader` over the file, after `file.Seek(0, 0)`, is the list of the
bytes not yet consumed; `ReadByte` takes the head and fails on the empty list. -/

/-- The test `b == ' ' || b == '\t' || b == '\r' || b == '\n'`. -/
def isSpaceByte (b : Nat) : Bool := b == 32 || b == 9 || b == 13 || b == 10

/-- The function `readerSkipSpace`: consume bytes through the first one that is
not whitespace and return that byte, or 0 at end of stream. -/
def readerSkipSpace : List Nat → Nat × List Nat
  | [] => (0, [])
  | readByte :: reader =>
    if readByte ≠ 32 ∧ readByte ≠ 9 ∧ readByte ≠ 13 ∧ readByte ≠ 10 then (readByte, reader)
    else readerSkipSpace reader

/-- The function `readerReadNonSpace`: consume bytes through the first whitespace
byte and return that byte, or 0 at end of stream. -/
def readerReadNonSpace : List Nat → Nat × List Nat
  | [] => (0, [])
  | readByte :: reader =>
    if readByte = 32 ∨ readByte = 9 ∨ readByte = 13 ∨ readByte = 10 then (readByte, reader)
    else readerReadNonSpace reader

/-- The loop of `readerReadNonSpaceSlice` with the slice `bytes` built so far:
the bytes before the first whitespace byte, which is consumed too; `nil`
(the empty list) when the stream ends first. -/
def readerReadNonSpaceSliceLoop (bytes : List Nat) : List Nat → List Nat × List Nat
  | [] => ([], [])
  | readByte :: reader =>
    if readByte = 32 ∨ readByte = 9 ∨ readByte = 13 ∨ readByte = 10 then (bytes, reader)
    else readerReadNonSpaceSliceLoop (bytes ++ [readByte]) reader

/-- The function `readerReadNonSpaceSlice`. -/
def readerReadNonSpaceSlice (reader : List Nat) : List Nat × List Nat :=
  readerReadNonSpaceSliceLoop [] reader

/-- The loop of `readerReadLine` with the slice `bytes` built so far. -/
def readerReadLineLoop (bytes : List Nat) : List Nat → List Nat × List Nat
  | [] => (bytes, [])
  | readByte :: reader =>
    if readByte = 10 then (bytes ++ [readByte], reader)
    else readerReadLineLoop (bytes ++ [readByte]) reader

/-- The function `readerReadLine`: the bytes through the first newline, or all that is left. -/
def readerReadLine (reader : List Nat) : List Nat × List Nat :=
  readerReadLineLoop [] reader

/-- The value `uint32(b - '0')`: the subtraction is on bytes and wraps modulo 256. -/
def digitOf (b : Nat) : Nat := (b + 256 - 48) % 256

/-- The loop of `parseUint32B` with the accumulator `n` and the current `x`.
At end of stream `ReadByte` gives the byte 0, whose `x` is 208, so the loop
stops after the pending digit is added. -/
def parseUint32BLoop (n x : Nat) : List Nat → Nat × List Nat
  | [] =>
    if x ≤ 9 then ((n * 10 + x) % 2 ^ 32, []) else (n, [])
  | b :: bf =>
    if x ≤ 9 then parseUint32BLoop ((n * 10 + x) % 2 ^ 32) (digitOf b) bf
    else (n, b :: bf)

/-- The function `parseUint32B`. -/
def parseUint32B (b : Nat) (bf : List Nat) : Nat × List Nat :=
  parseUint32BLoop 0 (digitOf b) bf

/-! ## PpmReader -/

/-- The `switch t` of `PpmReader`. -/
def ppmType (t : Nat) (old : ImageType) : ImageType :=
  if t = 0x31 then ImageType.PBM
  else if t = 0x32 ∨ t = 0x35 then ImageType.PGM
  else if t = 0x33 ∨ t = 0x36 then ImageType.PPM
  else if t = 0x34 then ImageType.BPM
  else if t = 0x37 then ImageType.XV
  else old

/-- The body of `PpmReader` on the buffered reader: discard one byte, read the type
byte, then two whitespace-led decimal numbers. -/
def ppmScan (reader : List Nat) (info : Info) : Info :=
  let reader := reader.drop 1
  match reader with
  | [] => info
  | t :: reader =>
    let info := { info with type := ppmType t info.type }
    let (b, reader) := readerSkipSpace reader
    let (w, reader) := parseUint32B b reader
    let info := { info with Width := w }
    let (b, reader) := readerSkipSpace reader
    let (h, _) := parseUint32B b reader
    let info := { info with Height := h }
    if info.Width = 0 ∨ info.Height = 0 then { info with type := ImageType.Unknown }
    else info

/-- The function `PpmReader`: rewind the file and scan it through a buffered reader. -/
def PpmReader (file : File) (info : Info) : Info :=
  ppmScan (file.Seek 0).data info

/-! ## XbmReader -/

/-- The body of `XbmReader` on the buffered reader. -/
def xbmScan (reader : List Nat) (info : Info) : Info :=
  let (_, reader) := readerReadNonSpace reader
  let (_, reader) := readerSkipSpace reader
  let (_, reader) := readerReadNonSpace reader
  let (b, reader) := readerSkipSpace reader
  let (w, reader) := parseUint32B b reader
  let info := { info with Width := w }
  let (_, reader) := readerSkipSpace reader
  let (p, reader) := readerReadNonSpaceSlice reader
  if ¬ (p.length = 7 ∧ at_ p 6 = 0x65 ∧ at_ p 0 = 0x23 ∧ at_ p 1 = 0x64 ∧ at_ p 2 = 0x65 ∧
      at_ p 3 = 0x66 ∧ at_ p 4 = 0x69 ∧ at_ p 5 = 0x6e) then info
  else
    let (_, reader) := readerSkipSpace reader
    let (_, reader) := readerReadNonSpace reader
    let (b, reader) := readerSkipSpace reader
    let (h, _) := parseUint32B b reader
    let info := { info with Height := h }
    if info.Width ≠ 0 ∧ info.Height ≠ 0 then { info with type := ImageType.XBM } else info

/-- The function `XbmReader`: rewind the file and scan it through a buffered reader. -/
def XbmReader (file : File) (info : Info) : Info :=
  xbmScan (file.Seek 0).data info

/-! ## XpmReader -/

/-- Modelled from the spec: `skipSpace` is declared in another file of the package;
`skipSpace(line, j)` is the index of the first non-whitespace byte at or after `j`,
or the length of the line when there is none. -/
def skipSpace (line : List Nat) (j : Nat) : Nat :=
  j + ((line.drop j).takeWhile isSpaceByte).length

/-- The test for an ASCII decimal digit. -/
def isDigitByte (b : Nat) : Bool := decide (48 ≤ b) && decide (b ≤ 57)

/-- The value of a run of ASCII digits, accumulated in an unsigned 32-bit word. -/
def digitsValue (ds : List Nat) : Nat :=
  ds.foldl (fun n c => (n * 10 + (c - 48)) % 2 ^ 32) 0

/-- Modelled from the spec: `parseUint32` is declared in another file of the package;
`parseUint32(line, j)` is the value of the digit run starting at `j` together with
the index after it. -/
def parseUint32 (line : List Nat) (j : Nat) : Nat × Nat :=
  let ds := (line.drop j).takeWhile isDigitByte
  (digitsValue ds, j + ds.length)

/-- The `for` loop of `XpmReader`; `none` is the run-time panic of `line[j]`
with `j` out of range. -/
def xpmLoop (info : Info) (reader : List Nat) : Option Info :=
  let next := readerReadLine reader
  if hline : next.1.length = 0 then some info
  else
    let line := next.1
    let j := skipSpace line 0
    if j < line.length then
      if at_ line j ≠ 0x22 then xpmLoop info next.2
      else
        let r := parseUint32 line (j + 1)
        let info := { info with Width := r.1 }
        let j := skipSpace line r.2
        let r := parseUint32 line j
        some { info with Height := r.1 }
    else none
termination_by reader.length
decreasing_by
  have key : ∀ (rest bytes : List Nat),
      (readerReadLineLoop bytes rest).1.length + (readerReadLineLoop bytes rest).2.length
        = bytes.length + rest.length := by
    intro rest
    induction rest with
    | nil => intro bytes; simp [readerReadLineLoop]
    | cons c rest ih =>
      intro bytes
      unfold readerReadLineLoop
      split
      · simp only [List.length_append, List.length_cons, List.length_nil]; omega
      · rw [ih]; simp only [List.length_append, List.length_cons, List.length_nil]; omega
  have h1 := key reader []
  have h2 : (readerReadLineLoop [] reader).1.length ≠ 0 := hline
  simp only [readerReadLine]
  simp only [List.length_nil] at h1
  omega

/-- The function `XpmReader`. -/
def XpmReader (file : File) (info : Info) : Option Info :=
  let reader := (file.Seek 0).data
  match xpmLoop info reader with
  | none => none
  | some info =>
    if info.Width ≠ 0 ∧ info.Height ≠ 0 then some { info with type := ImageType.XPM }
    else some info

/-! ## TiffReader -/

/-- The two values of `byteOrder`. -/
inductive byteOrder
  | bigEndian | littleEndian
  deriving DecidableEq, Repr

/-- Modelled from the spec: the methods of `byteOrder` are declared in another file
of the package; `Uint16` decodes an unsigned 16-bit integer from the first two
bytes of a slice in big- or little-endian order. -/
def byteOrder.Uint16 (order : byteOrder) (b : List Nat) : Nat :=
  match order with
  | byteOrder.bigEndian => at_ b 0 * 256 + at_ b 1
  | byteOrder.littleEndian => at_ b 1 * 256 + at_ b 0

/-- Modelled from the spec: the methods of `byteOrder` are declared in another file
of the package; `Uint32` decodes an unsigned 32-bit integer from the first four
bytes of a slice in big- or little-endian order. -/
def byteOrder.Uint32 (order : byteOrder) (b : List Nat) : Nat :=
  match order with
  | byteOrder.bigEndian => ((at_ b 0 * 256 + at_ b 1) * 256 + at_ b 2) * 256 + at_ b 3
  | byteOrder.littleEndian => ((at_ b 3 * 256 + at_ b 2) * 256 + at_ b 1) * 256 + at_ b 0

/-- The slice `b[lo:hi]`. -/
def slice (b : List Nat) (lo hi : Nat) : List Nat := (b.drop lo).take (hi - lo)

/-- The `switch datatype` of `TiffReader`: the value of a directory entry, or
`none` for a datatype of the `default` case. -/
def tiffValue (order : byteOrder) (datatype : Nat) (bytes : List Nat) : Option Nat :=
  if datatype = 1 ∨ datatype = 6 then some (at_ bytes 9)
  else if datatype = 3 ∨ datatype = 8 then some (order.Uint16 (slice bytes 8 10))
  else if datatype = 4 ∨ datatype = 9 then some (order.Uint32 (slice bytes 8 12))
  else none

/-- The `for i = 0; i < n; i++` loop of `TiffReader`, on the number of passes left. -/
def tiffLoop (order : byteOrder) : Nat → File → Info → Info
  | 0, _, info => info
  | n + 1, file, info =>
    let r := file.Read 12
    let bytes := blit (makeBytes 12) 0 r.bytes
    let tag := order.Uint16 (slice bytes 0 2)
    let datatype := order.Uint16 (slice bytes 2 4)
    match tiffValue order datatype bytes with
    | none => info
    | some value =>
      let info :=
        if tag = 256 then { info with Width := value }
        else if tag = 257 then { info with Height := value }
        else info
      if info.Width > 0 ∧ info.Height > 0 then { info with type := ImageType.TIFF }
      else tiffLoop order n r.file info

/-- The function `TiffReader`. -/
def TiffReader (file : File) (info : Info) (order : byteOrder) : Info :=
  let file := file.Seek 0
  let r := file.Read 8
  let bytes := blit (makeBytes 8) 0 r.bytes
  let i := order.Uint32 (slice bytes 4 8)
  let file := r.file.Seek i
  let r := file.Read 6
  let bytes := blit (makeBytes 6) 0 r.bytes
  let n := order.Uint16 (slice bytes 2 4)
  tiffLoop order n r.file info

/-! ## GetInfoReader -/

/-- The fixed-offset parsers `png`, `webp`, `gif`, `bmp`, `psd`, `mng`, `rgb`, `ras`,
`pcx` and the buffer parser `tiff`, which are declared in another file of the
package: they are parameters of the detector.  Each takes the buffer `p` and the
record and gives the record back, or `none` when it panics. -/
structure HeaderParsers where
  png : List Nat → Info → Option Info
  webp : List Nat → Info → Option Info
  gif : List Nat → Info → Option Info
  bmp : List Nat → Info → Option Info
  tiff : List Nat → Info → byteOrder → Option Info
  psd : List Nat → Info → Option Info
  mng : List Nat → Info → Option Info
  rgb : List Nat → Info → Option Info
  ras : List Nat → Info → Option Info
  pcx : List Nat → Info → Option Info

/-- The `switch p[0]` of `GetInfoReader`, on the buffer `p` after the first read and
the file after that read. -/
def dispatch (fp : HeaderParsers) (p : List Nat) (file : File) (info : Info) : Option Info :=
  if at_ p 0 = 0xff then
    if at_ p 1 = 0xd8 then some (JpegReader file info) else some info
  else if at_ p 0 = 0x89 then
    if at_ p 1 = 0x50 ∧ at_ p 2 = 0x4e ∧ at_ p 3 = 0x47 ∧ at_ p 4 = 0x0d ∧ at_ p 5 = 0x0a ∧
        at_ p 6 = 0x1a ∧ at_ p 7 = 0x0a then
      fp.png (blit p 12 (file.Read 12).bytes) info
    else some info
  else if at_ p 0 = 0x52 then
    if at_ p 1 = 0x49 ∧ at_ p 2 = 0x46 ∧ at_ p 3 = 0x46 ∧ at_ p 8 = 0x57 ∧ at_ p 9 = 0x45 ∧
        at_ p 10 = 0x42 ∧ at_ p 11 = 0x50 then
      fp.webp (blit p 12 (file.Read 18).bytes) info
    else some info
  else if at_ p 0 = 0x47 then
    if at_ p 1 = 0x49 ∧ at_ p 2 = 0x46 ∧ at_ p 3 = 0x38 ∧
        (at_ p 4 = 0x37 ∨ at_ p 4 = 0x2c ∨ at_ p 4 = 0x39) ∧ at_ p 5 = 0x61 then
      fp.gif p info
    else some info
  else if at_ p 0 = 0x42 then
    if at_ p 1 = 0x4d then fp.bmp (blit p 12 (file.Read 14).bytes) info else some info
  else if at_ p 0 = 0x50 then
    if at_ p 1 = 0x31 ∨ at_ p 1 = 0x32 ∨ at_ p 1 = 0x33 ∨ at_ p 1 = 0x34 ∨ at_ p 1 = 0x35 ∨
        at_ p 1 = 0x36 ∨ at_ p 1 = 0x37 then
      some (PpmReader file info)
    else some info
  else if at_ p 0 = 0x23 then
    if at_ p 1 = 0x64 ∧ at_ p 2 = 0x65 ∧ at_ p 3 = 0x66 ∧ at_ p 4 = 0x69 ∧ at_ p 5 = 0x6e ∧
        at_ p 6 = 0x65 ∧ (at_ p 7 = 0x20 ∨ at_ p 7 = 0x09) then
      some (XbmReader file info)
    else some info
  else if at_ p 0 = 0x2f then
    if at_ p 1 = 0x2a ∧ at_ p 2 = 0x20 ∧ at_ p 3 = 0x58 ∧ at_ p 4 = 0x50 ∧ at_ p 5 = 0x4d ∧
        at_ p 6 = 0x20 ∧ at_ p 7 = 0x2a ∧ at_ p 8 = 0x2f then
      XpmReader file info
    else some info
  else if at_ p 0 = 0x4d then
    if at_ p 1 = 0x4d ∧ at_ p 2 = 0x00 ∧ at_ p 3 = 0x2a then
      fp.tiff p info byteOrder.bigEndian
    else some info
  else if at_ p 0 = 0x49 then
    if at_ p 1 = 0x49 ∧ at_ p 2 = 0x2a ∧ at_ p 3 = 0x00 then
      fp.tiff p info byteOrder.littleEndian
    else some info
  else if at_ p 0 = 0x38 then
    if at_ p 1 = 0x42 ∧ at_ p 2 = 0x50 ∧ at_ p 3 = 0x53 then
      fp.psd (blit p 12 (file.Read 10).bytes) info
    else some info
  else if at_ p 0 = 0x8a then
    if at_ p 1 = 0x4d ∧ at_ p 2 = 0x4e ∧ at_ p 3 = 0x47 ∧ at_ p 4 = 0x0d ∧ at_ p 5 = 0x0a ∧
        at_ p 6 = 0x1a ∧ at_ p 7 = 0x0a then
      fp.mng (blit p 12 (file.Read 12).bytes) info
    else some info
  else if at_ p 0 = 0x01 then
    if at_ p 1 = 0xda ∧ at_ p 2 = 0x5b ∧ at_ p 3 = 0x01 ∧ at_ p 4 = 0x00 ∧ at_ p 5 = 0x5d then
      fp.rgb p info
    else some info
  else if at_ p 0 = 0x59 then
    if at_ p 1 = 0xa6 ∧ at_ p 2 = 0x6a ∧ at_ p 3 = 0x95 then fp.ras p info else some info
  else if at_ p 0 = 0x0a then
    if at_ p 2 = 0x01 then fp.pcx p info else some info
  else some info

/-- The function `GetInfoReader`: read up to 12 bytes into a 32-byte buffer, give
back the zero record when that read fails, and otherwise switch on the buffer.
`none` is a run-time panic. -/
def GetInfoReader (fp : HeaderParsers) (file : File) : Option Info :=
  let info := Info.zero
  let p := makeBytes 32
  let r := file.Read 12
  let p := blit p 0 r.bytes
  if r.err then some info
  else dispatch fp p r.file info

/-- The bytes of an ASCII text. -/
def bytesOf (s : String) : List Nat := s.toList.map Char.toNat

/-! ## Stream shapes used in the statements -/

/-- A JPEG marker segment other than start-of-frame: `FF code l1 l2 payload`. -/
structure Segment where
  code : Nat
  l1 : Nat
  l2 : Nat
  payload : List Nat
  deriving DecidableEq, Repr

/-- The bytes of a segment. -/
def Segment.encode (s : Segment) : List Nat := [0xff, s.code, s.l1, s.l2] ++ s.payload

/-- The segment is not a start-of-frame, its declared big-endian length `L` is
`l1 * 256 + l2` with `L ≥ 2`, and it carries `L - 2` payload bytes. -/
def Segment.wellFormed (s : Segment) : Prop :=
  ¬ (0xc0 ≤ s.code ∧ s.code ≤ 0xc3) ∧ s.l2 < 256 ∧ s.payload.length + 2 = s.l1 * 256 + s.l2

instance (s : Segment) : Decidable s.wellFormed := by
  unfold Segment.wellFormed; infer_instance

/-- The bytes of a run of segments. -/
def encodeSegments : List Segment → List Nat
  | [] => []
  | s :: rest => s.encode ++ encodeSegments rest

/-- The offsets at which the loop of `JpegReader` reads a marker: offset 2, and after
a full read at a visited offset that shows `FF` and a code outside `0xC0..0xC3`,
the offset moved forward by 2 plus the declared length. -/
inductive jpegVisits (data : List Nat) : Nat → Prop
  | start : jpegVisits data 2
  | next (i : Nat) : jpegVisits data i → i + 9 ≤ data.length → at_ data i = 0xff →
      ¬ (0xc0 ≤ at_ data (i + 1) ∧ at_ data (i + 1) ≤ 0xc3) →
      jpegVisits data (i + (2 + (at_ data (i + 3) ||| (at_ data (i + 2) <<< 8))))

/-- Fixed-offset parsers that all panic: a stand-in where their result cannot matter. -/
def panicParsers : HeaderParsers :=
  { png := fun _ _ => none, webp := fun _ _ => none, gif := fun _ _ => none,
    bmp := fun _ _ => none, tiff := fun _ _ _ => none, psd := fun _ _ => none,
    mng := fun _ _ => none, rgb := fun _ _ => none, ras := fun _ _ => none,
    pcx := fun _ _ => none }

/-- The number written by a run of ASCII decimal digits. -/
def decimalValue (ds : List Nat) : Nat :=
  ds.foldl (fun n c => n * 10 + (c - 48)) 0

/-- The format that the Netpbm type character stands for: `'1'` is PBM, `'2'` and
`'5'` are PGM, `'3'` and `'6'` are PPM, `'4'` is BPM, `'7'` is XV. -/
def netpbmFormat (t : Nat) : ImageType :=
  match t with
  | 0x31 => ImageType.PBM
  | 0x32 => ImageType.PGM
  | 0x35 => ImageType.PGM
  | 0x33 => ImageType.PPM
  | 0x36 => ImageType.PPM
  | 0x34 => ImageType.BPM
  | 0x37 => ImageType.XV
  | _ => ImageType.Unknown

/-- The stream ends here or goes on with a byte that is not a decimal digit. -/
def endsNumber (rest : List Nat) : Prop :=
  ∀ b, rest.head? = some b → b < 256 ∧ isDigitByte b = false

instance (rest : List Nat) : Decidable (endsNumber rest) := by
  unfold endsNumber
  cases rest with
  | nil => exact isTrue (by simp)
  | cons a t =>
    by_cases h : a < 256 ∧ isDigitByte a = false
    · exact isTrue (by simpa using h)
    · exact isFalse (by simpa using h)

/-! ## The table of magic signatures -/

/-- A magic signature: for each offset from 0 the byte values allowed there, the
empty list standing for a don't-care position. -/
abbrev Signature := List (List Nat)

/-- A signature against the bytes of a stream from offset `i` on; past the end of a
short stream the byte is 0, as in the zeroed buffer. -/
def Signature.acceptsFrom (data : List Nat) : Nat → Signature → Bool
  | _, [] => true
  | i, allowed :: sig =>
    (allowed.isEmpty || allowed.contains (at_ data i)) && Signature.acceptsFrom data (i + 1) sig

/-- A signature against the first bytes of a stream. -/
def Signature.accepts (sig : Signature) (data : List Nat) : Bool :=
  Signature.acceptsFrom data 0 sig

/-- JPEG: `FF D8`. -/
def sigJPEG : Signature := [[0xFF], [0xD8]]
/-- PNG: `89 50 4E 47 0D 0A 1A 0A`. -/
def sigPNG : Signature := [[0x89], [0x50], [0x4E], [0x47], [0x0D], [0x0A], [0x1A], [0x0A]]
/-- WEBP: `52 49 46 46 ? ? ? ? 57 45 42 50`. -/
def sigWEBP : Signature :=
  [[0x52], [0x49], [0x46], [0x46], [], [], [], [], [0x57], [0x45], [0x42], [0x50]]
/-- GIF: `47 49 46 38 [37|2C|39] 61`. -/
def sigGIF : Signature := [[0x47], [0x49], [0x46], [0x38], [0x37, 0x2C, 0x39], [0x61]]
/-- BMP: `42 4D`. -/
def sigBMP : Signature := [[0x42], [0x4D]]
/-- Netpbm: `50` followed by `[1-7]`. -/
def sigNetpbm : Signature := [[0x50], [0x31, 0x32, 0x33, 0x34, 0x35, 0x36, 0x37]]
/-- XBM: `23 64 65 66 69 6E 65` and a space or a tab. -/
def sigXBM : Signature := [[0x23], [0x64], [0x65], [0x66], [0x69], [0x6E], [0x65], [0x20, 0x09]]
/-- XPM: `2F 2A 20 58 50 4D 20 2A 2F`. -/
def sigXPM : Signature := [[0x2F], [0x2A], [0x20], [0x58], [0x50], [0x4D], [0x20], [0x2A], [0x2F]]
/-- TIFF big-endian: `4D 4D 00 2A`. -/
def sigTIFFbe : Signature := [[0x4D], [0x4D], [0x00], [0x2A]]
/-- TIFF little-endian: `49 49 2A 00`. -/
def sigTIFFle : Signature := [[0x49], [0x49], [0x2A], [0x00]]
/-- PSD: `38 42 50 53`. -/
def sigPSD : Signature := [[0x38], [0x42], [0x50], [0x53]]
/-- MNG: `8A 4D 4E 47 0D 0A 1A 0A`. -/
def sigMNG : Signature := [[0x8A], [0x4D], [0x4E], [0x47], [0x0D], [0x0A], [0x1A], [0x0A]]
/-- SGI RGB: `01 DA 5B 01 00 5D`. -/
def sigRGB : Signature := [[0x01], [0xDA], [0x5B], [0x01], [0x00], [0x5D]]
/-- Sun Raster: `59 A6 6A 95`. -/
def sigRAS : Signature := [[0x59], [0xA6], [0x6A], [0x95]]
/-- PCX: `0A ? 01`. -/
def sigPCX : Signature := [[0x0A], [], [0x01]]

/-- The magic signatures of the specification, in its order. -/
def signatureTable : List Signature :=
  [sigJPEG, sigPNG, sigWEBP, sigGIF, sigBMP, sigNetpbm, sigXBM, sigXPM, sigTIFFbe, sigTIFFle,
   sigPSD, sigMNG, sigRGB, sigRAS, sigPCX]

/-- The invariant the specification states for a returned record: width and height
both zero or both positive, and the zero record whenever the format is Unknown. -/
def recordInvariant (r : Info) : Prop :=
  ((r.Width = 0 ∧ r.Height = 0) ∨ (0 < r.Width ∧ 0 < r.Height)) ∧
  (r.type = ImageType.Unknown → r = Info.zero)

instance (r : Info) : Decidable (recordInvariant r) := by
  unfold recordInvariant; infer_instance

/-- A format other than Unknown exactly when width and height are both positive. -/
def formatIffSized (r : Info) : Prop :=
  r.type ≠ ImageType.Unknown ↔ (0 < r.Width ∧ 0 < r.Height)

instance (r : Info) : Decidable (formatIffSized r) := by
  unfold formatIffSized; infer_instance

/-! ## Stream shapes of the XPM statements -/

/-- A whitespace byte other than the newline: space, tab or carriage return. -/
def isBlankByte (b : Nat) : Bool := b == 32 || b == 9 || b == 13

/-- The first non-whitespace byte of a line, when it has one. -/
def firstNonSpace (l : List Nat) : Option Nat := (l.dropWhile isSpaceByte).head?

/-- A line body (the newline left out) that holds a non-whitespace byte and whose
first non-whitespace byte is not the double quote. -/
def plainLine (l : List Nat) : Bool :=
  !l.contains 10 &&
    match firstNonSpace l with
    | some c => c != 0x22
    | none => false

/-- The stream of newline-terminated lines with the given bodies. -/
def joinLines : List (List Nat) → List Nat
  | [] => []
  | l :: ls => l ++ 10 :: joinLines ls

/-! ## Stream shapes of the TIFF statements -/

/-- The 12 bytes of directory entry `k` when the entries start at offset `base`. -/
def entryAt (data : List Nat) (base k : Nat) : List Nat := (data.drop (base + 12 * k)).take 12

/-- The tag of a directory entry: its bytes 0..1. -/
def entryTag (order : byteOrder) (e : List Nat) : Nat := order.Uint16 (slice e 0 2)

/-- The datatype of a directory entry: its bytes 2..3. -/
def entryDatatype (order : byteOrder) (e : List Nat) : Nat := order.Uint16 (slice e 2 4)

/-- The entry has a supported datatype, and its value is `w` if its tag is 256 and
`h` if its tag is 257. -/
def entryAgrees (order : byteOrder) (e : List Nat) (w h : Nat) : Bool :=
  match tiffValue order (entryDatatype order e) e with
  | some v => (entryTag order e != 256 || v == w) && (entryTag order e != 257 || v == h)
  | none => false

/-- The first-directory offset of a TIFF header: its bytes 4..7. -/
def tiffOffset (order : byteOrder) (data : List Nat) : Nat := order.Uint32 (slice data 4 8)

/-- A stream with an 8-byte header whose bytes 4..7 decode to an offset `o`, a 2-byte
entry count at `o + cnt`, and 12-byte entries from `o + ent` on, all present in the
stream up to the later of entry `a`, which has tag 256 and the value `w > 0`, and
entry `b`, which has tag 257 and the value `h > 0`; every entry up to there has a
supported datatype and gives tags 256 and 257 no other value. -/
def tiffDirectory (order : byteOrder) (data : List Nat) (cnt ent a b w h : Nat) : Prop :=
  8 ≤ data.length ∧
  a < order.Uint16 (slice data (tiffOffset order data + cnt) (tiffOffset order data + cnt + 2)) ∧
  b < order.Uint16 (slice data (tiffOffset order data + cnt) (tiffOffset order data + cnt + 2)) ∧
  tiffOffset order data + ent + 12 * (max a b + 1) ≤ data.length ∧
  entryTag order (entryAt data (tiffOffset order data + ent) a) = 256 ∧
  entryTag order (entryAt data (tiffOffset order data + ent) b) = 257 ∧
  0 < w ∧ 0 < h ∧
  ∀ k, k < max a b + 1 → entryAgrees order (entryAt data (tiffOffset order data + ent) k) w h = true

instance (order : byteOrder) (data : List Nat) (cnt ent a b w h : Nat) :
    Decidable (tiffDirectory order data cnt ent a b w h) := by
  unfold tiffDirectory; infer_instance

/-- A little-endian stream laid out as TIFF 6.0 has it: offset 8, the count 2 at
offset 8, then at offset 10 the entries (256, short, 16) and (257, short, 8). -/
def tiffSample : List Nat :=
  [0x49, 0x49, 0x2a, 0, 8, 0, 0, 0,
   2, 0,
   0, 1, 3, 0, 1, 0, 0, 0, 16, 0, 0, 0,
   1, 1, 3, 0, 1, 0, 0, 0, 8, 0, 0, 0]

/-- The same two entries behind a 6-byte directory head whose bytes 2..3 hold the count. -/
def tiffShifted : List Nat :=
  [0x49, 0x49, 0x2a, 0, 8, 0, 0, 0,
   0, 0, 2, 0, 0, 0,
   0, 1, 3, 0, 1, 0, 0, 0, 16, 0, 0, 0,
   1, 1, 3, 0, 1, 0, 0, 0, 8, 0, 0, 0]

/-- The bytes of the token `#define`. -/
def defineToken : List Nat := [0x23, 0x64, 0x65, 0x66, 0x69, 0x6e, 0x65]

/-! ## Successive calls of the line reader -/

/-- The lines that successive calls of `readerReadLine` return, for at most `n`
calls, up to the first empty one. -/
def readerLines : Nat → List Nat → List (List Nat)
  | 0, _ => []
  | n + 1, reader =>
    if (readerReadLine reader).1.length = 0 then []
    else (readerReadLine reader).1 :: readerLines n (readerReadLine reader).2

/-- The concatenation of a list of byte slices. -/
def concatBytes : List (List Nat) → List Nat
  | [] => []
  | l :: ls => l ++ concatBytes ls

/-! ## The loop of JpegReader with a bound on its passes -/

/-- The `for` loop of `JpegReader` run for at most `fuel` passes: `none` when the
passes run out before the loop returns. -/
def jpegLoopFuel : Nat → List Nat → Nat → Info → Option Info
  | 0, _, _, _ => none
  | fuel + 1, data, i, info =>
    let r := (File.mk data i).Read 9
    let b := blit (makeBytes 9) 0 r.bytes
    if r.err = true ∨ r.bytes.length ≠ 9 then some info
    else
      let length := at_ b 3 ||| (at_ b 2 <<< 8)
      let code := at_ b 1
      let marker := at_ b 0
      if marker ≠ 0xff then some info
      else if 0xc0 ≤ code ∧ code ≤ 0xc3 then
        some { type := ImageType.JPEG
               Width := at_ b 8 ||| (at_ b 7 <<< 8)
               Height := at_ b 6 ||| (at_ b 5 <<< 8) }
      else jpegLoopFuel fuel data (i + (2 + length)) info

/-! ## The passes of the loop of TiffReader -/

/-- The 12-byte buffer of one pass of the loop of `TiffReader`: zeroed, then filled
by the read. -/
def tiffEntry (file : File) : List Nat := blit (makeBytes 12) 0 (file.Read 12).bytes

/-- The `switch tag` of `TiffReader`: the record after the value of an entry is stored. -/
def tiffStore (order : byteOrder) (bytes : List Nat) (value : Nat) (info : Info) : Info :=
  if entryTag order bytes = 256 then { info with Width := value }
  else if entryTag order bytes = 257 then { info with Height := value }
  else info

/-- The entry count `n` of `TiffReader` and the file as it stands before the loop. -/
def tiffHead (order : byteOrder) (data : List Nat) : Nat × File :=
  let r := (File.mk data 0).Read 8
  let bytes := blit (makeBytes 8) 0 r.bytes
  let i := order.Uint32 (slice bytes 4 8)
  let file := r.file.Seek i
  let r := file.Read 6
  let bytes := blit (makeBytes 6) 0 r.bytes
  (order.Uint16 (slice bytes 2 4), r.file)

/-- The states in which the loop of `TiffReader`, started on the zero record, stands
at the head of a pass: the passes left, the file and the record.  A pass leads to
the next one when the datatype of its entry is supported and the record does not
hold both a width and a height afterwards. -/
inductive tiffReaches (order : byteOrder) (data : List Nat) : Nat → File → Info → Prop
  | start : tiffReaches order data (tiffHead order data).1 (tiffHead order data).2 Info.zero
  | next (m : Nat) (file : File) (info : Info) (value : Nat) :
      tiffReaches order data (m + 1) file info →
      tiffValue order (entryDatatype order (tiffEntry file)) (tiffEntry file) = some value →
      ¬ (0 < (tiffStore order (tiffEntry file) value info).Width ∧
          0 < (tiffStore order (tiffEntry file) value info).Height) →
      tiffReaches order data m (file.Read 12).file (tiffStore order (tiffEntry file) value info)

/-- A little-endian stream in the layout that `TiffReader` reads, with the count 2,
the entry (256, short, 16) and an entry of datatype 0. -/
def tiffUnsupported : List Nat :=
  [0x49, 0x49, 0x2a, 0, 8, 0, 0, 0,
   0, 0, 2, 0, 0, 0,
   0, 1, 3, 0, 1, 0, 0, 0, 16, 0, 0, 0,
   5, 0, 0, 0, 1, 0, 0, 0, 8, 0, 0, 0]

/-! ## Logical TIFF directories and their two encodings -/

/-- A logical directory entry: its tag, its datatype, the four bytes between the
datatype and the value, which `TiffReader` does not look at, and its value. -/
structure TiffField where
  tag : Nat
  datatype : Nat
  skipped : List Nat
  value : Nat
  deriving DecidableEq, Repr

/-- The two bytes of a 16-bit field in the given byte order. -/
def enc16 (order : byteOrder) (v : Nat) : List Nat :=
  match order with
  | byteOrder.bigEndian => [v / 256 % 256, v % 256]
  | byteOrder.littleEndian => [v % 256, v / 256 % 256]

/-- The four bytes of a 32-bit field in the given byte order. -/
def enc32 (order : byteOrder) (v : Nat) : List Nat :=
  match order with
  | byteOrder.bigEndian => [v / 16777216 % 256, v / 65536 % 256, v / 256 % 256, v % 256]
  | byteOrder.littleEndian => [v % 256, v / 256 % 256, v / 65536 % 256, v / 16777216 % 256]

/-- The 12 bytes of an entry: tag, datatype, the skipped bytes, and the value at
offset 8, on 16 bits and two zero bytes for the short datatypes 3 and 8, on 32 bits
otherwise. -/
def encodeEntry (order : byteOrder) (e : TiffField) : List Nat :=
  enc16 order e.tag ++ (enc16 order e.datatype ++ (e.skipped ++
    (if e.datatype = 3 ∨ e.datatype = 8 then enc16 order e.value ++ [0, 0]
     else enc32 order e.value)))

/-- The bytes of a run of entries. -/
def encodeEntries (order : byteOrder) : List TiffField → List Nat
  | [] => []
  | e :: es => encodeEntry order e ++ encodeEntries order es

/-- The byte-order mark of a TIFF header: `MM` or `II`. -/
def orderMark (order : byteOrder) : List Nat :=
  match order with
  | byteOrder.bigEndian => [0x4d, 0x4d]
  | byteOrder.littleEndian => [0x49, 0x49]

/-- The stream of a directory in the layout that `TiffReader` reads: the byte-order
mark, the number 42, the offset of the directory, the bytes `gap` up to it, a
6-byte head with the entry count in its bytes 2..3 between the bytes `lead` and
`trail`, and the entries; every 16-bit and 32-bit field is in the given byte order. -/
def encodeTiff (order : byteOrder) (gap lead trail : List Nat) (entries : List TiffField) :
    List Nat :=
  orderMark order ++
  (enc16 order 42 ++ (enc32 order (8 + gap.length) ++ (gap ++ (lead ++
    (enc16 order entries.length ++ (trail ++ encodeEntries order entries))))))

/-- The fields fit their widths: a 16-bit tag, a datatype in `{3, 4, 8, 9}`, four
skipped bytes, and a value of 16 bits for a short and of 32 bits for a long. -/
def TiffField.wellFormed (e : TiffField) : Prop :=
  e.tag < 65536 ∧ (e.datatype = 3 ∨ e.datatype = 4 ∨ e.datatype = 8 ∨ e.datatype = 9) ∧
  e.skipped.length = 4 ∧
  (if e.datatype = 3 ∨ e.datatype = 8 then e.value < 65536 else e.value < 4294967296)

instance (e : TiffField) : Decidable e.wellFormed := by
  unfold TiffField.wellFormed; infer_instance

/-- The walk over the logical entries: store the value of tag 256 as width and of
tag 257 as height, and stop with the format TIFF once both are positive. -/
def tiffWalk : List TiffField → Info → Info
  | [], info => info
  | e :: es, info =>
    let info :=
      if e.tag = 256 then { info with Width := e.value }
      else if e.tag = 257 then { info with Height := e.value }
      else info
    if 0 < info.Width ∧ 0 < info.Height then { info with type := ImageType.TIFF }
    else tiffWalk es info

/-! ## The dispatch as a table of branches -/

/-- What a branch of the `switch` of `GetInfoReader` does once its test holds, given
the fixed-offset parsers, the buffer, the file and the record. -/
abbrev BranchAction := HeaderParsers → List Nat → File → Info → Option Info

/-- The branches of the `switch` of `GetInfoReader`: the signature each one tests and
what it does, in the order of the source. -/
def branchTable : List (Signature × BranchAction) :=
  [(sigJPEG, fun _ _ file info => some (JpegReader file info)),
   (sigPNG, fun fp p file info => fp.png (blit p 12 (file.Read 12).bytes) info),
   (sigWEBP, fun fp p file info => fp.webp (blit p 12 (file.Read 18).bytes) info),
   (sigGIF, fun fp p _ info => fp.gif p info),
   (sigBMP, fun fp p file info => fp.bmp (blit p 12 (file.Read 14).bytes) info),
   (sigNetpbm, fun _ _ file info => some (PpmReader file info)),
   (sigXBM, fun _ _ file info => some (XbmReader file info)),
   (sigXPM, fun _ _ file info => XpmReader file info),
   (sigTIFFbe, fun fp p _ info => fp.tiff p info byteOrder.bigEndian),
   (sigTIFFle, fun fp p _ info => fp.tiff p info byteOrder.littleEndian),
   (sigPSD, fun fp p file info => fp.psd (blit p 12 (file.Read 10).bytes) info),
   (sigMNG, fun fp p file info => fp.mng (blit p 12 (file.Read 12).bytes) info),
   (sigRGB, fun fp p _ info => fp.rgb p info),
   (sigRAS, fun fp p _ info => fp.ras p info),
   (sigPCX, fun fp p _ info => fp.pcx p info)]

/-- A dispatch that tests the branches of a table in its order: the first branch
whose signature accepts the buffer runs, and the record comes back untouched when
none does. -/
def runFirst (fp : HeaderParsers) (p : List Nat) (file : File) (info : Info) :
    List (Signature × BranchAction) → Option Info
  | [] => some info
  | branch :: rest =>
    if branch.1.accepts p = true then branch.2 fp p file info
    else runFirst fp p file info rest

/-! ## Directories in the layout of the specification -/

/-- The entry has the datatype short or long, and the value `v` at its offset 8, on
16 bits for a short and on 32 bits for a long, decoded in the byte order. -/
def shortOrLongValue (order : byteOrder) (e : List Nat) (v : Nat) : Prop :=
  (entryDatatype order e = 3 ∧ order.Uint16 (slice e 8 10) = v) ∨
  (entryDatatype order e = 4 ∧ order.Uint32 (slice e 8 12) = v)

instance (order : byteOrder) (e : List Nat) (v : Nat) : Decidable (shortOrLongValue order e v) := by
  unfold shortOrLongValue; infer_instance

/-- A stream with an 8-byte header whose bytes 4..7 decode to an offset `o`, a 2-byte
entry count at offset `o`, and 12-byte entries starting immediately at `o + 2`, all
present in the stream up to the later of entry `a`, which has tag 256 and the short
or long value `w > 0`, and entry `b`, which has tag 257 and the short or long value
`h > 0`, both among the entries counted; every entry up to there has one of the
datatypes 1, 3, 4, 6, 8, 9. -/
def standardDirectory (order : byteOrder) (data : List Nat) (a b w h : Nat) : Prop :=
  8 ≤ data.length ∧
  a < order.Uint16 (slice data (tiffOffset order data) (tiffOffset order data + 2)) ∧
  b < order.Uint16 (slice data (tiffOffset order data) (tiffOffset order data + 2)) ∧
  tiffOffset order data + 2 + 12 * (max a b + 1) ≤ data.length ∧
  entryTag order (entryAt data (tiffOffset order data + 2) a) = 256 ∧
  shortOrLongValue order (entryAt data (tiffOffset order data + 2) a) w ∧ 0 < w ∧
  entryTag order (entryAt data (tiffOffset order data + 2) b) = 257 ∧
  shortOrLongValue order (entryAt data (tiffOffset order data + 2) b) h ∧ 0 < h ∧
  ∀ k, k < max a b + 1 →
    entryDatatype order (entryAt data (tiffOffset order data + 2) k) ∈ [1, 3, 4, 6, 8, 9]

instance (order : byteOrder) (data : List Nat) (a b w h : Nat) :
    Decidable (standardDirectory order data a b w h) := by
  unfold standardDirectory; infer_instance

/-- A logical entry of a directory: tag, datatype, number of values and value. -/
structure IfdEntry where
  tag : Nat
  datatype : Nat
  count : Nat
  value : Nat
  deriving DecidableEq, Repr

/-- The 12 bytes of an entry: the tag and the datatype on 16 bits, the number of
values on 32 bits, and the value at offset 8, on 16 bits and two zero bytes for the
short datatypes 3 and 8, on 32 bits otherwise. -/
def encodeIfdEntry (order : byteOrder) (e : IfdEntry) : List Nat :=
  enc16 order e.tag ++ (enc16 order e.datatype ++ (enc32 order e.count ++
    (if e.datatype = 3 ∨ e.datatype = 8 then enc16 order e.value ++ [0, 0]
     else enc32 order e.value)))

/-- The bytes of a run of entries. -/
def encodeIfdEntries (order : byteOrder) : List IfdEntry → List Nat
  | [] => []
  | e :: es => encodeIfdEntry order e ++ encodeIfdEntries order es

/-- The stream of a directory in the layout of the specification: the byte-order
mark, the number 42, the offset of the directory, the bytes `gap` up to it, the
entry count on 16 bits at that offset, the entries right after it, and the offset 0
of the next directory; every 16-bit and 32-bit field is in the given byte order. -/
def encodeStandardTiff (order : byteOrder) (gap : List Nat) (entries : List IfdEntry) :
    List Nat :=
  orderMark order ++
  (enc16 order 42 ++ (enc32 order (8 + gap.length) ++ (gap ++
    (enc16 order entries.length ++ (encodeIfdEntries order entries ++ enc32 order 0)))))

/-- Three short entries: width 640 under tag 256, height 480 under tag 257, and tag
300; the first two declare the numbers of values 0x01000003 and 0x01010003. -/
def asymmetricEntries : List IfdEntry :=
  [⟨256, 3, 0x01000003, 640⟩, ⟨257, 3, 0x01010003, 480⟩, ⟨300, 3, 1, 7⟩]

/-! # Theorems -/

/-! ## Lemmas on buffers and bytes -/

theorem or_shiftLeft_eight (a b : Nat) (h : a < 256) : a ||| (b <<< 8) = b * 256 + a := by
  have h2 : a < 2 ^ 8 := by simpa using h
  rw [Nat.or_comm, Nat.shiftLeft_eq, Nat.mul_comm b, ← Nat.mul_add_lt_is_or h2 b]

theorem at_append_add (pre xs : List Nat) (k : Nat) :
    at_ (pre ++ xs) (pre.length + k) = at_ xs k := by
  unfold at_
  rw [List.getD_append_right _ _ _ _ (by omega)]
  simp

theorem at_append_length (pre xs : List Nat) : at_ (pre ++ xs) pre.length = at_ xs 0 :=
  at_append_add pre xs 0

theorem at_cons_zero (x : Nat) (xs : List Nat) : at_ (x :: xs) 0 = x := rfl

theorem at_cons_succ (x : Nat) (xs : List Nat) (k : Nat) : at_ (x :: xs) (k + 1) = at_ xs k := by
  simp [at_]

theorem at_read_full (data : List Nat) (i n k : Nat) (hk : k < n) (h : i + n ≤ data.length) :
    at_ (blit (makeBytes n) 0 ((data.drop i).take n)) k = at_ data (i + k) := by
  have hlen : ((data.drop i).take n).length = n := by
    simp only [List.length_take, List.length_drop]; omega
  simp only [at_, blit, makeBytes, List.take_zero, List.nil_append, Nat.zero_add, hlen,
    List.drop_replicate, Nat.sub_self, List.replicate_zero, List.append_nil,
    List.getD_eq_getElem?_getD, List.getElem?_take_of_lt hk, List.getElem?_drop]

/-! ## Lemmas on the dispatch of GetInfoReader -/

/-- The buffer `p` of `GetInfoReader` after its first read. -/
theorem at_header (data : List Nat) (k : Nat) :
    at_ (blit (makeBytes 32) 0 ((data.drop 0).take 12)) k = if k < 12 then at_ data k else 0 := by
  simp only [at_, blit, makeBytes, List.take_zero, List.nil_append, Nat.zero_add, List.drop_zero,
    List.drop_replicate, List.getD_eq_getElem?_getD, List.getElem?_append, List.length_take,
    List.getElem?_take, List.getElem?_replicate]
  by_cases hk : k < 12
  · by_cases hd : k < data.length
    · simp [hk, hd]
    · simp only [hk, hd, List.getElem?_eq_none (Nat.le_of_not_lt hd), if_true]
      have : ¬ k < min 12 data.length := by omega
      simp only [this, if_false]
      split <;> rfl
  · have : ¬ k < min 12 data.length := by omega
    simp only [hk, this, if_false]
    split <;> rfl

/-- The readers of this file take the file and rewind or seek it themselves, so the
offset left by the first read does not matter to them. -/
theorem GetInfoReader_unfold (fp : HeaderParsers) (data : List Nat) (h : data ≠ []) :
    GetInfoReader fp (File.ofBytes data)
      = dispatch fp (blit (makeBytes 32) 0 ((data.drop 0).take 12))
          ⟨data, 0 + ((data.drop 0).take 12).length⟩ Info.zero := by
  have hlen : ¬ data.length ≤ 0 := by
    cases data with
    | nil => exact absurd rfl h
    | cons a t => simp
  simp only [GetInfoReader, File.ofBytes, File.Read, hlen, decide_False, Bool.false_eq_true,
    if_false]

theorem GetInfoReader_nil (fp : HeaderParsers) : GetInfoReader fp (File.ofBytes []) = some Info.zero := by
  simp [GetInfoReader, File.ofBytes, File.Read]

theorem JpegReader_pos (data : List Nat) (pos : Nat) (info : Info) :
    JpegReader ⟨data, pos⟩ info = JpegReader ⟨data, 0⟩ info := by
  simp only [JpegReader, File.Seek]

theorem PpmReader_pos (data : List Nat) (pos : Nat) (info : Info) :
    PpmReader ⟨data, pos⟩ info = PpmReader ⟨data, 0⟩ info := by
  simp only [PpmReader, File.Seek]

theorem XbmReader_pos (data : List Nat) (pos : Nat) (info : Info) :
    XbmReader ⟨data, pos⟩ info = XbmReader ⟨data, 0⟩ info := by
  simp only [XbmReader, File.Seek]

theorem XpmReader_pos (data : List Nat) (pos : Nat) (info : Info) :
    XpmReader ⟨data, pos⟩ info = XpmReader ⟨data, 0⟩ info := by
  simp only [XpmReader, File.Seek]

theorem GetInfoReader_jpeg (fp : HeaderParsers) (data : List Nat) (h : data ≠ [])
    (h0 : at_ data 0 = 0xff) (h1 : at_ data 1 = 0xd8) :
    GetInfoReader fp (File.ofBytes data) = some (JpegReader ⟨data, 0⟩ Info.zero) := by
  rw [GetInfoReader_unfold fp data h, dispatch]
  simp only [at_header, h0, h1, Nat.lt_add_one, if_true, Nat.reduceLT]
  rw [JpegReader_pos]

theorem GetInfoReader_ppm (fp : HeaderParsers) (data : List Nat) (h : data ≠ [])
    (h0 : at_ data 0 = 0x50) (h1 : 0x31 ≤ at_ data 1 ∧ at_ data 1 ≤ 0x37) :
    GetInfoReader fp (File.ofBytes data) = some (PpmReader ⟨data, 0⟩ Info.zero) := by
  rw [GetInfoReader_unfold fp data h, dispatch]
  have h1' : at_ data 1 = 0x31 ∨ at_ data 1 = 0x32 ∨ at_ data 1 = 0x33 ∨ at_ data 1 = 0x34 ∨
      at_ data 1 = 0x35 ∨ at_ data 1 = 0x36 ∨ at_ data 1 = 0x37 := by omega
  simp only [at_header, h0, h1', Nat.lt_add_one, if_true, Nat.reduceLT, Nat.reduceEqDiff,
    if_false]
  rw [PpmReader_pos]

/-! ## Lemmas on JpegReader -/

theorem jpegLoop_short (data : List Nat) (i : Nat) (info : Info) (h : data.length < i + 9) :
    jpegLoop data i info = info := by
  rw [jpegLoop]
  simp only [File.Read, List.length_take, List.length_drop]
  rw [dif_pos]
  right
  omega

theorem jpegLoop_step (data : List Nat) (i : Nat) (info : Info) (h : i + 9 ≤ data.length) :
    jpegLoop data i info =
      if at_ data i ≠ 0xff then info
      else if 0xc0 ≤ at_ data (i + 1) ∧ at_ data (i + 1) ≤ 0xc3 then
        { type := ImageType.JPEG
          Width := at_ data (i + 8) ||| (at_ data (i + 7) <<< 8)
          Height := at_ data (i + 6) ||| (at_ data (i + 5) <<< 8) }
      else jpegLoop data (i + (2 + (at_ data (i + 3) ||| (at_ data (i + 2) <<< 8)))) info := by
  rw [jpegLoop]
  have hlen : ((data.drop i).take 9).length = 9 := by
    simp only [List.length_take, List.length_drop]; omega
  have herr : ¬ (data.length ≤ i) := by omega
  simp only [File.Read, hlen, herr, decide_False, ne_eq, not_true_eq_false, or_self,
    dite_false, Bool.false_eq_true]
  rw [at_read_full data i 9 0 (by omega) h, at_read_full data i 9 1 (by omega) h,
    at_read_full data i 9 2 (by omega) h, at_read_full data i 9 3 (by omega) h,
    at_read_full data i 9 5 (by omega) h, at_read_full data i 9 6 (by omega) h,
    at_read_full data i 9 7 (by omega) h, at_read_full data i 9 8 (by omega) h]
  rfl

theorem jpegLoop_sof (pre tail : List Nat) (c l1 l2 p h1 h2 w1 w2 : Nat) (info : Info)
    (hc : 0xc0 ≤ c ∧ c ≤ 0xc3) (hh : h2 < 256) (hw : w2 < 256) :
    jpegLoop (pre ++ ([0xff, c, l1, l2, p, h1, h2, w1, w2] ++ tail)) pre.length info
      = ⟨ImageType.JPEG, w1 * 256 + w2, h1 * 256 + h2⟩ := by
  rw [jpegLoop_step _ _ _ (by simp)]
  simp only [at_append_length, at_append_add, List.cons_append, at_cons_zero, at_cons_succ, ne_eq,
    not_true_eq_false, if_false, hc, and_self, if_true,
    or_shiftLeft_eight _ _ hh, or_shiftLeft_eight _ _ hw]

theorem jpegLoop_segments (segs : List Segment) (hsegs : ∀ s ∈ segs, s.wellFormed)
    (pre rest : List Nat) (info : Info) (hrest : 9 ≤ rest.length) :
    jpegLoop (pre ++ (encodeSegments segs ++ rest)) pre.length info
      = jpegLoop ((pre ++ encodeSegments segs) ++ rest) (pre ++ encodeSegments segs).length info := by
  induction segs generalizing pre with
  | nil => simp [encodeSegments]
  | cons s segs ih =>
    have hs : s.wellFormed := hsegs s (List.mem_cons_self _ _)
    have hrec := ih (fun t ht => hsegs t (List.mem_cons_of_mem _ ht)) (pre ++ s.encode)
    obtain ⟨hcode, hl2, hlen⟩ := hs
    have hdata : pre ++ (encodeSegments (s :: segs) ++ rest)
        = pre ++ (0xff :: s.code :: s.l1 :: s.l2 :: (s.payload ++ (encodeSegments segs ++ rest))) := by
      simp [encodeSegments, Segment.encode]
    rw [hdata, jpegLoop_step _ _ _ (by simp; omega)]
    simp only [at_append_length, at_append_add, at_cons_zero, at_cons_succ, ne_eq, not_true_eq_false,
      if_false, hcode, or_shiftLeft_eight _ _ hl2]
    have hpos : pre.length + (2 + (s.l1 * 256 + s.l2)) = (pre ++ s.encode).length := by
      simp [Segment.encode]; omega
    rw [hpos, ← hdata]
    have hd2 : pre ++ (encodeSegments (s :: segs) ++ rest)
        = (pre ++ s.encode) ++ (encodeSegments segs ++ rest) := by
      simp [encodeSegments]
    rw [hd2, hrec]
    simp [encodeSegments]

/-- C1: a stream `FF D8`, then any number of well-formed non-SOF segments, then a
segment `FF c l1 l2 p h1 h2 w1 w2` with `c` in `0xC0..0xC3` (and anything after it)
makes `GetInfoReader` return format JPEG with height `h1*256+h2` and width
`w1*256+w2`: each non-SOF segment is skipped by its declared length. -/
theorem GetInfoReader_jpeg_first_sof (fp : HeaderParsers) (segs : List Segment)
    (c l1 l2 p h1 h2 w1 w2 : Nat) (tail : List Nat)
    (hsegs : ∀ s ∈ segs, s.wellFormed) (hc : 0xc0 ≤ c ∧ c ≤ 0xc3)
    (hh : h2 < 256) (hw : w2 < 256) :
    GetInfoReader fp (File.ofBytes ([0xff, 0xd8] ++
        (encodeSegments segs ++ ([0xff, c, l1, l2, p, h1, h2, w1, w2] ++ tail))))
      = some ⟨ImageType.JPEG, w1 * 256 + w2, h1 * 256 + h2⟩ := by
  have hwalk := jpegLoop_segments segs hsegs [0xff, 0xd8]
    ([0xff, c, l1, l2, p, h1, h2, w1, w2] ++ tail) Info.zero (by simp)
  have hsof := jpegLoop_sof ([0xff, 0xd8] ++ encodeSegments segs) tail c l1 l2 p h1 h2 w1 w2
    Info.zero hc hh hw
  have hjpeg : JpegReader (File.mk ([0xff, 0xd8] ++
        (encodeSegments segs ++ ([0xff, c, l1, l2, p, h1, h2, w1, w2] ++ tail))) 0) Info.zero
      = ⟨ImageType.JPEG, w1 * 256 + w2, h1 * 256 + h2⟩ := by
    unfold JpegReader File.Seek
    exact hwalk.trans hsof
  rw [GetInfoReader_jpeg fp ([0xff, 0xd8] ++
    (encodeSegments segs ++ ([0xff, c, l1, l2, p, h1, h2, w1, w2] ++ tail))) (by simp)
    (by simp [at_]) (by simp [at_])]
  exact congrArg some hjpeg

/-- Witness of C1: an APP0 segment of length 4 and a COM segment of length 2 before
a SOF0 segment with height `01 02` and width `03 04`. -/
theorem GetInfoReader_jpeg_first_sof_witness :
    (∀ s ∈ [Segment.mk 0xe0 0 4 [1, 2], Segment.mk 0xfe 0 2 []], s.wellFormed) ∧
    GetInfoReader panicParsers (File.ofBytes [0xff, 0xd8, 0xff, 0xe0, 0, 4, 1, 2,
        0xff, 0xfe, 0, 2, 0xff, 0xc0, 0, 17, 8, 1, 2, 3, 4])
      = some ⟨ImageType.JPEG, 772, 258⟩ :=
  ⟨by decide,
   GetInfoReader_jpeg_first_sof panicParsers [Segment.mk 0xe0 0 4 [1, 2], Segment.mk 0xfe 0 2 []]
    0xc0 0 17 8 1 2 3 4 [] (by decide) (by decide) (by decide) (by decide)⟩

theorem jpegLoop_same_or_jpeg (data : List Nat) (info : Info) :
    ∀ (m i : Nat), data.length - i ≤ m →
      jpegLoop data i info = info ∨ (jpegLoop data i info).type = ImageType.JPEG := by
  intro m
  induction m with
  | zero =>
    intro i hm
    left
    exact jpegLoop_short data i info (by omega)
  | succ m ih =>
    intro i hm
    by_cases hlen : i + 9 ≤ data.length
    · rw [jpegLoop_step data i info hlen]
      split
      · left; rfl
      · split
        · right; rfl
        · exact ih _ (by omega)
    · left
      exact jpegLoop_short data i info (by omega)

theorem jpegLoop_visits (data : List Nat) (info : Info) (i : Nat) (h : jpegVisits data i) :
    jpegLoop data 2 info = jpegLoop data i info := by
  induction h with
  | start => rfl
  | next i _ hlen hff hcode ih =>
    rw [ih, jpegLoop_step data i info hlen]
    simp only [hff, ne_eq, not_true_eq_false, if_false, hcode]

theorem jpegLoop_no_sof (data : List Nat) (info : Info)
    (hno : ∀ i, jpegVisits data i → ¬ (0xc0 ≤ at_ data (i + 1) ∧ at_ data (i + 1) ≤ 0xc3)) :
    ∀ (m i : Nat), data.length - i ≤ m → jpegVisits data i → jpegLoop data i info = info := by
  intro m
  induction m with
  | zero =>
    intro i hm _
    exact jpegLoop_short data i info (by omega)
  | succ m ih =>
    intro i hm hv
    by_cases hlen : i + 9 ≤ data.length
    · rw [jpegLoop_step data i info hlen]
      by_cases hff : at_ data i = 0xff
      · simp only [hff, ne_eq, not_true_eq_false, if_false, hno i hv]
        exact ih _ (by omega) (jpegVisits.next i hv hlen hff (hno i hv))
      · simp only [ne_eq, hff, not_false_eq_true, if_true]
    · exact jpegLoop_short data i info (by omega)

/-- C2: started on the zero record, `JpegReader` returns format JPEG or leaves the
zero record; the zero record is what comes back when a visited marker offset does
not hold `FF`, when the 9-byte read at a visited offset is short, and when no
visited offset carries a code in `0xC0..0xC3`. -/
theorem JpegReader_jpeg_or_zero (file : File) :
    ((JpegReader file Info.zero).type = ImageType.JPEG ∨ JpegReader file Info.zero = Info.zero) ∧
    (∀ i, jpegVisits file.data i → at_ file.data i ≠ 0xff → JpegReader file Info.zero = Info.zero) ∧
    (∀ i, jpegVisits file.data i → file.data.length < i + 9 →
      JpegReader file Info.zero = Info.zero) ∧
    ((∀ i, jpegVisits file.data i →
        ¬ (0xc0 ≤ at_ file.data (i + 1) ∧ at_ file.data (i + 1) ≤ 0xc3)) →
      JpegReader file Info.zero = Info.zero) := by
  have hdata : (file.Seek 2).data = file.data := rfl
  refine ⟨?_, ?_, ?_, ?_⟩
  · unfold JpegReader
    rw [hdata]
    exact (jpegLoop_same_or_jpeg file.data Info.zero _ 2 (Nat.le_refl _)).symm
  · intro i hv hff
    unfold JpegReader
    rw [hdata, jpegLoop_visits file.data Info.zero i hv]
    by_cases hlen : i + 9 ≤ file.data.length
    · rw [jpegLoop_step _ _ _ hlen]
      simp only [ne_eq, hff, not_false_eq_true, if_true]
    · exact jpegLoop_short _ _ _ (by omega)
  · intro i hv hshort
    unfold JpegReader
    rw [hdata, jpegLoop_visits file.data Info.zero i hv]
    exact jpegLoop_short _ _ _ hshort
  · intro hno
    unfold JpegReader
    rw [hdata]
    exact jpegLoop_no_sof file.data Info.zero hno _ 2 (Nat.le_refl _) jpegVisits.start

/-! ## Lemmas on the scanner -/

theorem readerSkipSpace_spaces (ws : List Nat) (c : Nat) (rest : List Nat)
    (hws : ∀ b ∈ ws, isSpaceByte b = true) (hc : isSpaceByte c = false) :
    readerSkipSpace (ws ++ c :: rest) = (c, rest) := by
  induction ws with
  | nil =>
    simp only [isSpaceByte, Bool.or_eq_false_iff, beq_eq_false_iff_ne, ne_eq] at hc
    simp only [List.nil_append, readerSkipSpace, ne_eq]
    rw [if_pos]
    tauto
  | cons w ws ih =>
    have hw := hws w (List.mem_cons_self _ _)
    simp only [isSpaceByte, Bool.or_eq_true, beq_iff_eq] at hw
    simp only [List.cons_append, readerSkipSpace, ne_eq]
    rw [if_neg (by omega)]
    exact ih (fun b hb => hws b (List.mem_cons_of_mem _ hb))

theorem digitOf_digit (d : Nat) (h : isDigitByte d = true) : digitOf d = d - 48 := by
  simp only [isDigitByte, Bool.and_eq_true, decide_eq_true_eq] at h
  unfold digitOf
  omega

theorem digitOf_not_digit (b : Nat) (hb : b < 256) (h : isDigitByte b = false) : ¬ digitOf b ≤ 9 := by
  simp only [isDigitByte, Bool.and_eq_false_iff, decide_eq_false_iff_not] at h
  unfold digitOf
  omega

theorem isDigitByte_not_space (d : Nat) (h : isDigitByte d = true) : isSpaceByte d = false := by
  simp only [isDigitByte, Bool.and_eq_true, decide_eq_true_eq] at h
  simp only [isSpaceByte, Bool.or_eq_false_iff, beq_eq_false_iff_ne, ne_eq]
  omega

theorem isSpaceByte_ends (b : Nat) (h : isSpaceByte b = true) : b < 256 ∧ isDigitByte b = false := by
  simp only [isSpaceByte, Bool.or_eq_true, beq_iff_eq] at h
  simp only [isDigitByte, Bool.and_eq_false_iff, decide_eq_false_iff_not]
  omega

theorem parseUint32BLoop_stop (n x : Nat) (bf : List Nat) (hx : ¬ x ≤ 9) :
    parseUint32BLoop n x bf = (n, bf) := by
  cases bf <;> simp [parseUint32BLoop, hx]

/-- The loop of `parseUint32B` on a run of digits: it folds the digits into the
32-bit accumulator and consumes the byte that ends the run. -/
theorem parseUint32BLoop_digits (ds : List Nat) (hds : ∀ b ∈ ds, isDigitByte b = true)
    (rest : List Nat) (hrest : endsNumber rest) (n d : Nat) (hd : isDigitByte d = true) :
    parseUint32BLoop n (digitOf d) (ds ++ rest)
      = ((d :: ds).foldl (fun n c => (n * 10 + (c - 48)) % 2 ^ 32) n, rest.tail) := by
  have hx : digitOf d ≤ 9 := by
    have := digitOf_digit d hd
    simp only [isDigitByte, Bool.and_eq_true, decide_eq_true_eq] at hd
    omega
  induction ds generalizing n d with
  | nil =>
    have hdv := digitOf_digit d hd
    cases rest with
    | nil =>
      simp only [List.nil_append, parseUint32BLoop, hx, if_true, List.foldl_cons, List.foldl_nil,
        List.tail_nil]
      rw [hdv]
    | cons b tl =>
      have hb := hrest b rfl
      simp only [List.nil_append, parseUint32BLoop, hx, if_true]
      rw [parseUint32BLoop_stop _ _ _ (digitOf_not_digit b hb.1 hb.2)]
      simp only [List.foldl_cons, List.foldl_nil, List.tail_cons]
      rw [hdv]
  | cons e ds ih =>
    have he : isDigitByte e = true := hds e (List.mem_cons_self _ _)
    have hxe : digitOf e ≤ 9 := by
      have := digitOf_digit e he
      simp only [isDigitByte, Bool.and_eq_true, decide_eq_true_eq] at he
      omega
    have hdv := digitOf_digit d hd
    simp only [List.cons_append, parseUint32BLoop, hx, if_true, List.append_eq]
    rw [ih (fun b hb => hds b (List.mem_cons_of_mem _ hb)) _ e he hxe]
    simp only [List.foldl_cons]
    rw [hdv]

theorem foldl_mod_eq (ds : List Nat) (a : Nat) :
    ds.foldl (fun n c => (n * 10 + (c - 48)) % 2 ^ 32) (a % 2 ^ 32)
      = (ds.foldl (fun n c => n * 10 + (c - 48)) a) % 2 ^ 32 := by
  induction ds generalizing a with
  | nil => rfl
  | cons c ds ih =>
    simp only [List.foldl_cons]
    rw [← ih]
    congr 1
    omega

theorem digitsValue_eq (ds : List Nat) (h : decimalValue ds < 2 ^ 32) :
    digitsValue ds = decimalValue ds := by
  have := foldl_mod_eq ds 0
  unfold digitsValue decimalValue at *
  rw [Nat.zero_mod] at this
  rw [this, Nat.mod_eq_of_lt h]

/-- The function `parseUint32B` on the first digit of a run that writes a number
below `2^32`: the number, and the stream after the byte that ends the run. -/
theorem parseUint32B_number (d : Nat) (ds rest : List Nat)
    (hds : ∀ b ∈ d :: ds, isDigitByte b = true) (hrest : endsNumber rest)
    (hval : decimalValue (d :: ds) < 2 ^ 32) :
    parseUint32B d (ds ++ rest) = (decimalValue (d :: ds), rest.tail) := by
  unfold parseUint32B
  rw [parseUint32BLoop_digits ds (fun b hb => hds b (List.mem_cons_of_mem _ hb)) rest hrest 0 d
    (hds d (List.mem_cons_self _ _))]
  have := digitsValue_eq (d :: ds) hval
  unfold digitsValue at this
  rw [this]

/-! ## PpmReader -/

theorem ppmType_eq_netpbmFormat (t : Nat) (ht : 0x31 ≤ t ∧ t ≤ 0x37) (old : ImageType) :
    ppmType t old = netpbmFormat t ∧ netpbmFormat t ≠ ImageType.Unknown := by
  obtain ⟨h1, h2⟩ := ht
  interval_cases t <;> exact ⟨rfl, by decide⟩

theorem ppmScan_numbers (p t w d e : Nat) (ws1 ds ws2 es rest : List Nat) (info : Info)
    (ht : 0x31 ≤ t ∧ t ≤ 0x37)
    (hws1 : ∀ b ∈ ws1, isSpaceByte b = true) (hw : isSpaceByte w = true)
    (hws2 : ∀ b ∈ ws2, isSpaceByte b = true)
    (hds : ∀ b ∈ d :: ds, isDigitByte b = true) (hes : ∀ b ∈ e :: es, isDigitByte b = true)
    (hrest : endsNumber rest)
    (hW : 1 ≤ decimalValue (d :: ds) ∧ decimalValue (d :: ds) < 2 ^ 32)
    (hH : 1 ≤ decimalValue (e :: es) ∧ decimalValue (e :: es) < 2 ^ 32) :
    ppmScan (p :: t :: (ws1 ++ d :: (ds ++ w :: (ws2 ++ e :: (es ++ rest))))) info
      = ⟨netpbmFormat t, decimalValue (d :: ds), decimalValue (e :: es)⟩ := by
  have hd : isSpaceByte d = false := isDigitByte_not_space d (hds d (List.mem_cons_self _ _))
  have he : isSpaceByte e = false := isDigitByte_not_space e (hes e (List.mem_cons_self _ _))
  have hend : endsNumber (w :: (ws2 ++ e :: (es ++ rest))) := by
    intro b hb
    simp only [List.head?_cons, Option.some.injEq] at hb
    subst hb
    exact isSpaceByte_ends _ hw
  have hty := ppmType_eq_netpbmFormat t ht info.type
  have hW0 : ¬ decimalValue (d :: ds) = 0 := by omega
  have hH0 : ¬ decimalValue (e :: es) = 0 := by omega
  simp only [ppmScan, List.drop_succ_cons, List.drop_zero,
    readerSkipSpace_spaces ws1 d _ hws1 hd,
    parseUint32B_number d ds _ hds hend hW.2, List.tail_cons,
    readerSkipSpace_spaces ws2 e _ hws2 he,
    parseUint32B_number e es _ hes hrest hH.2, hty.1, hW0, hH0, or_self, if_false]

/-- C3: for a stream `P`, a type character `t` in `'1'..'7'`, whitespace, the digits of
`W`, whitespace, the digits of `H`, then a non-digit byte or the end of the stream,
with `1 ≤ W, H < 2^32`, `GetInfoReader` returns width `W`, height `H` and the format
that `t` stands for. -/
theorem GetInfoReader_netpbm (fp : HeaderParsers) (t : Nat) (ws1 dw ws2 dh rest : List Nat)
    (ht : 0x31 ≤ t ∧ t ≤ 0x37)
    (hws1 : ws1 ≠ [] ∧ ∀ b ∈ ws1, isSpaceByte b = true)
    (hdw : dw ≠ [] ∧ ∀ b ∈ dw, isDigitByte b = true)
    (hws2 : ws2 ≠ [] ∧ ∀ b ∈ ws2, isSpaceByte b = true)
    (hdh : dh ≠ [] ∧ ∀ b ∈ dh, isDigitByte b = true)
    (hrest : endsNumber rest)
    (hW : 1 ≤ decimalValue dw ∧ decimalValue dw < 2 ^ 32)
    (hH : 1 ≤ decimalValue dh ∧ decimalValue dh < 2 ^ 32) :
    GetInfoReader fp (File.ofBytes ([0x50, t] ++ ws1 ++ dw ++ ws2 ++ dh ++ rest))
      = some ⟨netpbmFormat t, decimalValue dw, decimalValue dh⟩ := by
  obtain ⟨d, ds, rfl⟩ := List.exists_cons_of_ne_nil hdw.1
  obtain ⟨e, es, rfl⟩ := List.exists_cons_of_ne_nil hdh.1
  obtain ⟨w, ws, rfl⟩ := List.exists_cons_of_ne_nil hws2.1
  have hshape : [0x50, t] ++ ws1 ++ d :: ds ++ w :: ws ++ e :: es ++ rest
      = 0x50 :: t :: (ws1 ++ d :: (ds ++ w :: (ws ++ e :: (es ++ rest)))) := by
    simp
  rw [hshape, GetInfoReader_ppm fp (0x50 :: t :: (ws1 ++ d :: (ds ++ w :: (ws ++ e :: (es ++ rest)))))
    (by simp) (at_cons_zero _ _) (by simpa [at_] using ht)]
  simp only [PpmReader, File.Seek]
  rw [ppmScan_numbers 0x50 t w d e ws1 ds ws es rest Info.zero ht hws1.2
    (hws2.2 w (List.mem_cons_self _ _)) (fun b hb => hws2.2 b (List.mem_cons_of_mem _ hb))
    hdw.2 hdh.2 hrest hW hH]

/-- Witness of C3: the bytes of `P2\n10 20\n255\n` give (PGM, 10, 20). -/
theorem GetInfoReader_netpbm_witness :
    GetInfoReader panicParsers (File.ofBytes (bytesOf "P2\n10 20\n255\n"))
      = some ⟨ImageType.PGM, 10, 20⟩ :=
  GetInfoReader_netpbm panicParsers 0x32 [10] [0x31, 0x30] [32] [0x32, 0x30]
    [10, 0x32, 0x35, 0x35, 10]
    (by decide) (by decide) (by decide) (by decide) (by decide) (by decide) (by decide) (by decide)

/-- C4: when the second byte of the stream is a type character in `'1'..'7'`, the
record of `PpmReader` holds the two parsed numbers, and its format is Unknown if and
only if the parsed width is 0 or the parsed height is 0. -/
theorem PpmReader_unknown_iff_zero (file : File)
    (ht : 0x31 ≤ at_ file.data 1 ∧ at_ file.data 1 ≤ 0x37) :
    (PpmReader file Info.zero).Width
        = (parseUint32B (readerSkipSpace (file.data.drop 2)).1
            (readerSkipSpace (file.data.drop 2)).2).1 ∧
    (PpmReader file Info.zero).Height
        = (parseUint32B
            (readerSkipSpace (parseUint32B (readerSkipSpace (file.data.drop 2)).1
              (readerSkipSpace (file.data.drop 2)).2).2).1
            (readerSkipSpace (parseUint32B (readerSkipSpace (file.data.drop 2)).1
              (readerSkipSpace (file.data.drop 2)).2).2).2).1 ∧
    ((PpmReader file Info.zero).type = ImageType.Unknown ↔
      (PpmReader file Info.zero).Width = 0 ∨ (PpmReader file Info.zero).Height = 0) := by
  obtain ⟨data, pos⟩ := file
  simp only at ht
  match data, ht with
  | [], ht => simp [at_] at ht
  | [_], ht => simp [at_] at ht
  | p :: t :: rest, ht =>
    have ht' : 0x31 ≤ t ∧ t ≤ 0x37 := by simpa [at_] using ht
    have hty := ppmType_eq_netpbmFormat t ht' ImageType.Unknown
    simp only [PpmReader, File.Seek, ppmScan, List.drop_succ_cons, List.drop_zero, Info.zero,
      hty.1]
    split_ifs with h
    · exact ⟨rfl, rfl, by simpa using h⟩
    · refine ⟨rfl, rfl, ?_⟩
      simp only [h, iff_false]
      exact hty.2

/-- Witness of C4: the bytes of `P3 0 5` yield format Unknown. -/
theorem PpmReader_unknown_iff_zero_witness :
    (PpmReader (File.ofBytes (bytesOf "P3 0 5")) Info.zero).type = ImageType.Unknown :=
  (PpmReader_unknown_iff_zero (File.ofBytes (bytesOf "P3 0 5")) (by decide)).2.2.mpr
    (Or.inl (by decide))

/-! ## Signatures and dispatch -/

theorem sigJPEG_accepts (data : List Nat) :
    sigJPEG.accepts data = true ↔
      (at_ data 0 = 0xff ∧ at_ data 1 = 0xd8) := by
  simp only [sigJPEG, Signature.accepts, Signature.acceptsFrom, List.isEmpty_cons, List.isEmpty_nil,
    Bool.false_or, Bool.true_or, Bool.and_true, Bool.true_and, Bool.and_eq_true,
    List.contains_cons, List.contains_nil, Bool.or_false, Bool.or_eq_true, beq_iff_eq,
    Nat.zero_add, Nat.reduceAdd]

theorem sigPNG_accepts (data : List Nat) :
    sigPNG.accepts data = true ↔
      (at_ data 0 = 0x89 ∧ at_ data 1 = 0x50 ∧ at_ data 2 = 0x4e ∧ at_ data 3 = 0x47 ∧ at_ data 4 = 0x0d ∧
      at_ data 5 = 0x0a ∧ at_ data 6 = 0x1a ∧ at_ data 7 = 0x0a) := by
  simp only [sigPNG, Signature.accepts, Signature.acceptsFrom, List.isEmpty_cons, List.isEmpty_nil,
    Bool.false_or, Bool.true_or, Bool.and_true, Bool.true_and, Bool.and_eq_true,
    List.contains_cons, List.contains_nil, Bool.or_false, Bool.or_eq_true, beq_iff_eq,
    Nat.zero_add, Nat.reduceAdd]

theorem sigWEBP_accepts (data : List Nat) :
    sigWEBP.accepts data = true ↔
      (at_ data 0 = 0x52 ∧ at_ data 1 = 0x49 ∧ at_ data 2 = 0x46 ∧ at_ data 3 = 0x46 ∧ at_ data 8 = 0x57 ∧
      at_ data 9 = 0x45 ∧ at_ data 10 = 0x42 ∧ at_ data 11 = 0x50) := by
  simp only [sigWEBP, Signature.accepts, Signature.acceptsFrom, List.isEmpty_cons, List.isEmpty_nil,
    Bool.false_or, Bool.true_or, Bool.and_true, Bool.true_and, Bool.and_eq_true,
    List.contains_cons, List.contains_nil, Bool.or_false, Bool.or_eq_true, beq_iff_eq,
    Nat.zero_add, Nat.reduceAdd]

theorem sigGIF_accepts (data : List Nat) :
    sigGIF.accepts data = true ↔
      (at_ data 0 = 0x47 ∧ at_ data 1 = 0x49 ∧ at_ data 2 = 0x46 ∧ at_ data 3 = 0x38 ∧
      (at_ data 4 = 0x37 ∨ at_ data 4 = 0x2c ∨ at_ data 4 = 0x39) ∧ at_ data 5 = 0x61) := by
  simp only [sigGIF, Signature.accepts, Signature.acceptsFrom, List.isEmpty_cons, List.isEmpty_nil,
    Bool.false_or, Bool.true_or, Bool.and_true, Bool.true_and, Bool.and_eq_true,
    List.contains_cons, List.contains_nil, Bool.or_false, Bool.or_eq_true, beq_iff_eq,
    Nat.zero_add, Nat.reduceAdd]

theorem sigBMP_accepts (data : List Nat) :
    sigBMP.accepts data = true ↔
      (at_ data 0 = 0x42 ∧ at_ data 1 = 0x4d) := by
  simp only [sigBMP, Signature.accepts, Signature.acceptsFrom, List.isEmpty_cons, List.isEmpty_nil,
    Bool.false_or, Bool.true_or, Bool.and_true, Bool.true_and, Bool.and_eq_true,
    List.contains_cons, List.contains_nil, Bool.or_false, Bool.or_eq_true, beq_iff_eq,
    Nat.zero_add, Nat.reduceAdd]

theorem sigNetpbm_accepts (data : List Nat) :
    sigNetpbm.accepts data = true ↔
      (at_ data 0 = 0x50 ∧ (at_ data 1 = 0x31 ∨ at_ data 1 = 0x32 ∨ at_ data 1 = 0x33 ∨ at_ data 1 = 0x34 ∨
      at_ data 1 = 0x35 ∨ at_ data 1 = 0x36 ∨ at_ data 1 = 0x37)) := by
  simp only [sigNetpbm, Signature.accepts, Signature.acceptsFrom, List.isEmpty_cons, List.isEmpty_nil,
    Bool.false_or, Bool.true_or, Bool.and_true, Bool.true_and, Bool.and_eq_true,
    List.contains_cons, List.contains_nil, Bool.or_false, Bool.or_eq_true, beq_iff_eq,
    Nat.zero_add, Nat.reduceAdd]

theorem sigXBM_accepts (data : List Nat) :
    sigXBM.accepts data = true ↔
      (at_ data 0 = 0x23 ∧ at_ data 1 = 0x64 ∧ at_ data 2 = 0x65 ∧ at_ data 3 = 0x66 ∧ at_ data 4 = 0x69 ∧
      at_ data 5 = 0x6e ∧ at_ data 6 = 0x65 ∧ (at_ data 7 = 0x20 ∨ at_ data 7 = 0x09)) := by
  simp only [sigXBM, Signature.accepts, Signature.acceptsFrom, List.isEmpty_cons, List.isEmpty_nil,
    Bool.false_or, Bool.true_or, Bool.and_true, Bool.true_and, Bool.and_eq_true,
    List.contains_cons, List.contains_nil, Bool.or_false, Bool.or_eq_true, beq_iff_eq,
    Nat.zero_add, Nat.reduceAdd]

theorem sigXPM_accepts (data : List Nat) :
    sigXPM.accepts data = true ↔
      (at_ data 0 = 0x2f ∧ at_ data 1 = 0x2a ∧ at_ data 2 = 0x20 ∧ at_ data 3 = 0x58 ∧ at_ data 4 = 0x50 ∧
      at_ data 5 = 0x4d ∧ at_ data 6 = 0x20 ∧ at_ data 7 = 0x2a ∧ at_ data 8 = 0x2f) := by
  simp only [sigXPM, Signature.accepts, Signature.acceptsFrom, List.isEmpty_cons, List.isEmpty_nil,
    Bool.false_or, Bool.true_or, Bool.and_true, Bool.true_and, Bool.and_eq_true,
    List.contains_cons, List.contains_nil, Bool.or_false, Bool.or_eq_true, beq_iff_eq,
    Nat.zero_add, Nat.reduceAdd]

theorem sigTIFFbe_accepts (data : List Nat) :
    sigTIFFbe.accepts data = true ↔
      (at_ data 0 = 0x4d ∧ at_ data 1 = 0x4d ∧ at_ data 2 = 0x00 ∧ at_ data 3 = 0x2a) := by
  simp only [sigTIFFbe, Signature.accepts, Signature.acceptsFrom, List.isEmpty_cons, List.isEmpty_nil,
    Bool.false_or, Bool.true_or, Bool.and_true, Bool.true_and, Bool.and_eq_true,
    List.contains_cons, List.contains_nil, Bool.or_false, Bool.or_eq_true, beq_iff_eq,
    Nat.zero_add, Nat.reduceAdd]

theorem sigTIFFle_accepts (data : List Nat) :
    sigTIFFle.accepts data = true ↔
      (at_ data 0 = 0x49 ∧ at_ data 1 = 0x49 ∧ at_ data 2 = 0x2a ∧ at_ data 3 = 0x00) := by
  simp only [sigTIFFle, Signature.accepts, Signature.acceptsFrom, List.isEmpty_cons, List.isEmpty_nil,
    Bool.false_or, Bool.true_or, Bool.and_true, Bool.true_and, Bool.and_eq_true,
    List.contains_cons, List.contains_nil, Bool.or_false, Bool.or_eq_true, beq_iff_eq,
    Nat.zero_add, Nat.reduceAdd]

theorem sigPSD_accepts (data : List Nat) :
    sigPSD.accepts data = true ↔
      (at_ data 0 = 0x38 ∧ at_ data 1 = 0x42 ∧ at_ data 2 = 0x50 ∧ at_ data 3 = 0x53) := by
  simp only [sigPSD, Signature.accepts, Signature.acceptsFrom, List.isEmpty_cons, List.isEmpty_nil,
    Bool.false_or, Bool.true_or, Bool.and_true, Bool.true_and, Bool.and_eq_true,
    List.contains_cons, List.contains_nil, Bool.or_false, Bool.or_eq_true, beq_iff_eq,
    Nat.zero_add, Nat.reduceAdd]

theorem sigMNG_accepts (data : List Nat) :
    sigMNG.accepts data = true ↔
      (at_ data 0 = 0x8a ∧ at_ data 1 = 0x4d ∧ at_ data 2 = 0x4e ∧ at_ data 3 = 0x47 ∧ at_ data 4 = 0x0d ∧
      at_ data 5 = 0x0a ∧ at_ data 6 = 0x1a ∧ at_ data 7 = 0x0a) := by
  simp only [sigMNG, Signature.accepts, Signature.acceptsFrom, List.isEmpty_cons, List.isEmpty_nil,
    Bool.false_or, Bool.true_or, Bool.and_true, Bool.true_and, Bool.and_eq_true,
    List.contains_cons, List.contains_nil, Bool.or_false, Bool.or_eq_true, beq_iff_eq,
    Nat.zero_add, Nat.reduceAdd]

theorem sigRGB_accepts (data : List Nat) :
    sigRGB.accepts data = true ↔
      (at_ data 0 = 0x01 ∧ at_ data 1 = 0xda ∧ at_ data 2 = 0x5b ∧ at_ data 3 = 0x01 ∧ at_ data 4 = 0x00 ∧
      at_ data 5 = 0x5d) := by
  simp only [sigRGB, Signature.accepts, Signature.acceptsFrom, List.isEmpty_cons, List.isEmpty_nil,
    Bool.false_or, Bool.true_or, Bool.and_true, Bool.true_and, Bool.and_eq_true,
    List.contains_cons, List.contains_nil, Bool.or_false, Bool.or_eq_true, beq_iff_eq,
    Nat.zero_add, Nat.reduceAdd]

theorem sigRAS_accepts (data : List Nat) :
    sigRAS.accepts data = true ↔
      (at_ data 0 = 0x59 ∧ at_ data 1 = 0xa6 ∧ at_ data 2 = 0x6a ∧ at_ data 3 = 0x95) := by
  simp only [sigRAS, Signature.accepts, Signature.acceptsFrom, List.isEmpty_cons, List.isEmpty_nil,
    Bool.false_or, Bool.true_or, Bool.and_true, Bool.true_and, Bool.and_eq_true,
    List.contains_cons, List.contains_nil, Bool.or_false, Bool.or_eq_true, beq_iff_eq,
    Nat.zero_add, Nat.reduceAdd]

theorem sigPCX_accepts (data : List Nat) :
    sigPCX.accepts data = true ↔
      (at_ data 0 = 0x0a ∧ at_ data 2 = 0x01) := by
  simp only [sigPCX, Signature.accepts, Signature.acceptsFrom, List.isEmpty_cons, List.isEmpty_nil,
    Bool.false_or, Bool.true_or, Bool.and_true, Bool.true_and, Bool.and_eq_true,
    List.contains_cons, List.contains_nil, Bool.or_false, Bool.or_eq_true, beq_iff_eq,
    Nat.zero_add, Nat.reduceAdd]


/-- Every signature looks at offsets below 12 only, where the buffer of
`GetInfoReader` holds the bytes of the stream. -/
theorem acceptsFrom_header (data : List Nat) (sig : Signature) (i : Nat)
    (h : i + sig.length ≤ 12) :
    Signature.acceptsFrom (blit (makeBytes 32) 0 ((data.drop 0).take 12)) i sig
      = Signature.acceptsFrom data i sig := by
  induction sig generalizing i with
  | nil => rfl
  | cons a sig ih =>
    simp only [List.length_cons] at h
    simp only [Signature.acceptsFrom, at_header, ih (i + 1) (by omega)]
    rw [if_pos (by omega)]

theorem accepts_header (data : List Nat) (sig : Signature) (h : sig ∈ signatureTable) :
    sig.accepts (blit (makeBytes 32) 0 ((data.drop 0).take 12)) = sig.accepts data := by
  unfold Signature.accepts
  apply acceptsFrom_header
  simp only [signatureTable, List.mem_cons, List.mem_singleton, List.not_mem_nil, or_false] at h
  rcases h with h | h | h | h | h | h | h | h | h | h | h | h | h | h | h <;> subst h <;> decide

theorem dispatch_no_match (fp : HeaderParsers) (p : List Nat) (file : File) (info : Info)
    (h : ∀ sig ∈ signatureTable, sig.accepts p = false) :
    dispatch fp p file info = some info := by
  have hsigJPEG := (not_congr (sigJPEG_accepts p)).mp (by rw [h sigJPEG (by simp [signatureTable])]; simp)
  have hsigPNG := (not_congr (sigPNG_accepts p)).mp (by rw [h sigPNG (by simp [signatureTable])]; simp)
  have hsigWEBP := (not_congr (sigWEBP_accepts p)).mp (by rw [h sigWEBP (by simp [signatureTable])]; simp)
  have hsigGIF := (not_congr (sigGIF_accepts p)).mp (by rw [h sigGIF (by simp [signatureTable])]; simp)
  have hsigBMP := (not_congr (sigBMP_accepts p)).mp (by rw [h sigBMP (by simp [signatureTable])]; simp)
  have hsigNetpbm := (not_congr (sigNetpbm_accepts p)).mp (by rw [h sigNetpbm (by simp [signatureTable])]; simp)
  have hsigXBM := (not_congr (sigXBM_accepts p)).mp (by rw [h sigXBM (by simp [signatureTable])]; simp)
  have hsigXPM := (not_congr (sigXPM_accepts p)).mp (by rw [h sigXPM (by simp [signatureTable])]; simp)
  have hsigTIFFbe := (not_congr (sigTIFFbe_accepts p)).mp (by rw [h sigTIFFbe (by simp [signatureTable])]; simp)
  have hsigTIFFle := (not_congr (sigTIFFle_accepts p)).mp (by rw [h sigTIFFle (by simp [signatureTable])]; simp)
  have hsigPSD := (not_congr (sigPSD_accepts p)).mp (by rw [h sigPSD (by simp [signatureTable])]; simp)
  have hsigMNG := (not_congr (sigMNG_accepts p)).mp (by rw [h sigMNG (by simp [signatureTable])]; simp)
  have hsigRGB := (not_congr (sigRGB_accepts p)).mp (by rw [h sigRGB (by simp [signatureTable])]; simp)
  have hsigRAS := (not_congr (sigRAS_accepts p)).mp (by rw [h sigRAS (by simp [signatureTable])]; simp)
  have hsigPCX := (not_congr (sigPCX_accepts p)).mp (by rw [h sigPCX (by simp [signatureTable])]; simp)
  unfold dispatch
  by_cases h0 : at_ p 0 = 0xff
  · rw [if_pos h0, if_neg (fun hc => hsigJPEG ⟨h0, hc⟩)]
  rw [if_neg h0]
  clear h0
  by_cases h0 : at_ p 0 = 0x89
  · rw [if_pos h0, if_neg (fun hc => hsigPNG ⟨h0, hc⟩)]
  rw [if_neg h0]
  clear h0
  by_cases h0 : at_ p 0 = 0x52
  · rw [if_pos h0, if_neg (fun hc => hsigWEBP ⟨h0, hc⟩)]
  rw [if_neg h0]
  clear h0
  by_cases h0 : at_ p 0 = 0x47
  · rw [if_pos h0, if_neg (fun hc => hsigGIF ⟨h0, hc⟩)]
  rw [if_neg h0]
  clear h0
  by_cases h0 : at_ p 0 = 0x42
  · rw [if_pos h0, if_neg (fun hc => hsigBMP ⟨h0, hc⟩)]
  rw [if_neg h0]
  clear h0
  by_cases h0 : at_ p 0 = 0x50
  · rw [if_pos h0, if_neg (fun hc => hsigNetpbm ⟨h0, hc⟩)]
  rw [if_neg h0]
  clear h0
  by_cases h0 : at_ p 0 = 0x23
  · rw [if_pos h0, if_neg (fun hc => hsigXBM ⟨h0, hc⟩)]
  rw [if_neg h0]
  clear h0
  by_cases h0 : at_ p 0 = 0x2f
  · rw [if_pos h0, if_neg (fun hc => hsigXPM ⟨h0, hc⟩)]
  rw [if_neg h0]
  clear h0
  by_cases h0 : at_ p 0 = 0x4d
  · rw [if_pos h0, if_neg (fun hc => hsigTIFFbe ⟨h0, hc⟩)]
  rw [if_neg h0]
  clear h0
  by_cases h0 : at_ p 0 = 0x49
  · rw [if_pos h0, if_neg (fun hc => hsigTIFFle ⟨h0, hc⟩)]
  rw [if_neg h0]
  clear h0
  by_cases h0 : at_ p 0 = 0x38
  · rw [if_pos h0, if_neg (fun hc => hsigPSD ⟨h0, hc⟩)]
  rw [if_neg h0]
  clear h0
  by_cases h0 : at_ p 0 = 0x8a
  · rw [if_pos h0, if_neg (fun hc => hsigMNG ⟨h0, hc⟩)]
  rw [if_neg h0]
  clear h0
  by_cases h0 : at_ p 0 = 0x01
  · rw [if_pos h0, if_neg (fun hc => hsigRGB ⟨h0, hc⟩)]
  rw [if_neg h0]
  clear h0
  by_cases h0 : at_ p 0 = 0x59
  · rw [if_pos h0, if_neg (fun hc => hsigRAS ⟨h0, hc⟩)]
  rw [if_neg h0]
  clear h0
  by_cases h0 : at_ p 0 = 0x0a
  · rw [if_pos h0, if_neg (fun hc => hsigPCX ⟨h0, hc⟩)]
  rw [if_neg h0]

theorem GetInfoReader_xbm (fp : HeaderParsers) (data : List Nat) (h : sigXBM.accepts data = true) :
    GetInfoReader fp (File.ofBytes data) = some (XbmReader ⟨data, 0⟩ Info.zero) := by
  have hne : data ≠ [] := by
    intro hnil
    subst hnil
    exact absurd h (by decide)
  obtain ⟨h0, h1, h2, h3, h4, h5, h6, h7⟩ := (sigXBM_accepts data).mp h
  rw [GetInfoReader_unfold fp data hne, dispatch]
  simp only [at_header, h0, h1, h2, h3, h4, h5, h6, h7, Nat.lt_add_one, if_true, Nat.reduceLT,
    Nat.reduceEqDiff, if_false, and_self]
  rw [XbmReader_pos]

theorem GetInfoReader_xpm (fp : HeaderParsers) (data : List Nat) (h : sigXPM.accepts data = true) :
    GetInfoReader fp (File.ofBytes data) = XpmReader ⟨data, 0⟩ Info.zero := by
  have hne : data ≠ [] := by
    intro hnil
    subst hnil
    exact absurd h (by decide)
  obtain ⟨h0, h1, h2, h3, h4, h5, h6, h7, h8⟩ := (sigXPM_accepts data).mp h
  rw [GetInfoReader_unfold fp data hne, dispatch]
  simp only [at_header, h0, h1, h2, h3, h4, h5, h6, h7, h8, Nat.lt_add_one, if_true,
    Nat.reduceLT, Nat.reduceEqDiff, if_false, and_self]
  rw [XpmReader_pos]

/-- C7: when the first 12 bytes of a stream match none of the magic signatures of the
table, and when the first read fails because the stream is empty, `GetInfoReader`
returns the zero record whatever the fixed-offset parsers are: none is invoked. -/
theorem GetInfoReader_no_signature (fp : HeaderParsers) (data : List Nat)
    (h : data = [] ∨ ∀ sig ∈ signatureTable, sig.accepts data = false) :
    GetInfoReader fp (File.ofBytes data) = some Info.zero := by
  by_cases hnil : data = []
  · subst hnil
    exact GetInfoReader_nil fp
  · rcases h with h | h
    · exact absurd h hnil
    · rw [GetInfoReader_unfold fp data hnil]
      apply dispatch_no_match
      intro sig hs
      rw [accepts_header data sig hs]
      exact h sig hs

/-- Witness of C7: twelve bytes of plain text match no signature. -/
theorem GetInfoReader_no_signature_witness :
    GetInfoReader panicParsers (File.ofBytes (bytesOf "hello, world")) = some Info.zero :=
  GetInfoReader_no_signature panicParsers (bytesOf "hello, world") (Or.inr (by decide))

/-! ## The shape of the returned record -/

theorem ppmScan_formatIffSized (p t : Nat) (rest : List Nat) (ht : 0x31 ≤ t ∧ t ≤ 0x37) :
    formatIffSized (ppmScan (p :: t :: rest) Info.zero) := by
  have hty := ppmType_eq_netpbmFormat t ht ImageType.Unknown
  simp only [ppmScan, List.drop_succ_cons, List.drop_zero, Info.zero, hty.1, formatIffSized]
  split_ifs with h
  · simp only [ne_eq, not_true_eq_false, false_iff]
    omega
  · simp only [ne_eq, hty.2, not_false_eq_true, true_iff]
    omega

theorem xbmScan_formatIffSized (reader : List Nat) :
    formatIffSized (xbmScan reader Info.zero) := by
  simp only [xbmScan, Info.zero, formatIffSized]
  split_ifs with h1 h2
  all_goals
    simp only [ne_eq, reduceCtorEq, not_false_eq_true, not_true_eq_false, true_iff, false_iff]
    omega

theorem xpmLoop_eq (info : Info) (reader : List Nat) :
    xpmLoop info reader =
      if (readerReadLine reader).1.length = 0 then some info
      else if skipSpace (readerReadLine reader).1 0 < (readerReadLine reader).1.length then
        if at_ (readerReadLine reader).1 (skipSpace (readerReadLine reader).1 0) ≠ 0x22 then
          xpmLoop info (readerReadLine reader).2
        else
          some { info with
            Width := (parseUint32 (readerReadLine reader).1
              (skipSpace (readerReadLine reader).1 0 + 1)).1
            Height := (parseUint32 (readerReadLine reader).1
              (skipSpace (readerReadLine reader).1
                (parseUint32 (readerReadLine reader).1
                  (skipSpace (readerReadLine reader).1 0 + 1)).2)).1 }
      else none := by
  rw [xpmLoop]
  rfl

theorem readerReadLineLoop_length (rest bytes : List Nat) :
    (readerReadLineLoop bytes rest).1.length + (readerReadLineLoop bytes rest).2.length
      = bytes.length + rest.length := by
  induction rest generalizing bytes with
  | nil => simp [readerReadLineLoop]
  | cons c rest ih =>
    unfold readerReadLineLoop
    split
    · simp only [List.length_append, List.length_cons, List.length_nil]; omega
    · rw [ih]; simp only [List.length_append, List.length_cons, List.length_nil]; omega

theorem readerReadLine_shorter (reader : List Nat) (h : (readerReadLine reader).1.length ≠ 0) :
    (readerReadLine reader).2.length < reader.length := by
  have := readerReadLineLoop_length reader []
  simp only [readerReadLine, List.length_nil] at *
  omega

theorem xpmLoop_type (info : Info) :
    ∀ (m : Nat) (reader : List Nat) (r : Info), reader.length ≤ m →
      xpmLoop info reader = some r → r.type = info.type := by
  intro m
  induction m with
  | zero =>
    intro reader r hm h
    have hnil : reader = [] := List.eq_nil_of_length_eq_zero (by omega)
    subst hnil
    rw [xpmLoop_eq] at h
    simp only [readerReadLine, readerReadLineLoop, List.length_nil, if_true, Option.some.injEq] at h
    rw [← h]
  | succ m ih =>
    intro reader r hm h
    rw [xpmLoop_eq] at h
    split_ifs at h with h1 h2 h3
    · simp only [Option.some.injEq] at h
      rw [← h]
    · exact ih _ r (by have := readerReadLine_shorter reader h1; omega) h
    · simp only [Option.some.injEq] at h
      rw [← h]

theorem XpmReader_formatIffSized (file : File) (r : Info)
    (h : XpmReader file Info.zero = some r) : formatIffSized r := by
  unfold XpmReader at h
  cases hloop : xpmLoop Info.zero (file.Seek 0).data with
  | none => simp [hloop] at h
  | some info =>
    have hty : info.type = ImageType.Unknown := xpmLoop_type Info.zero _ _ info (Nat.le_refl _) hloop
    simp only [hloop] at h
    split_ifs at h with hc
    · simp only [Option.some.injEq] at h
      subst h
      simp only [formatIffSized, ne_eq, reduceCtorEq, not_false_eq_true, true_iff]
      omega
    · simp only [Option.some.injEq] at h
      subst h
      simp only [formatIffSized, hty, ne_eq, not_true_eq_false, false_iff]
      omega

/-- C5, as stated, fails: the six bytes of `P3 0 5` come back as (Unknown, 0, 5), a
record with one dimension set and no format. -/
theorem GetInfoReader_partial_record :
    GetInfoReader panicParsers (File.ofBytes (bytesOf "P3 0 5"))
        = some ⟨ImageType.Unknown, 0, 5⟩ ∧
      ¬ recordInvariant ⟨ImageType.Unknown, 0, 5⟩ := by
  decide

/-- C5, amended: on a stream with the Netpbm or the XBM signature `GetInfoReader`
returns a record whose format is other than Unknown exactly when width and height
are both positive; so is every record it returns on a stream with the XPM
signature; on a stream with the JPEG signature it returns a JPEG record or the
zero record.  Dimensions parsed before a failure are not reset. -/
theorem GetInfoReader_record_shape (fp : HeaderParsers) (data : List Nat) :
    (sigNetpbm.accepts data = true ∨ sigXBM.accepts data = true →
      ∃ r, GetInfoReader fp (File.ofBytes data) = some r ∧ formatIffSized r) ∧
    (sigXPM.accepts data = true →
      ∀ r, GetInfoReader fp (File.ofBytes data) = some r → formatIffSized r) ∧
    (sigJPEG.accepts data = true →
      ∃ r, GetInfoReader fp (File.ofBytes data) = some r ∧
        (r.type = ImageType.JPEG ∨ r = Info.zero)) := by
  refine ⟨?_, ?_, ?_⟩
  · rintro (h | h)
    · obtain ⟨h0, h1⟩ := (sigNetpbm_accepts data).mp h
      have ht : 0x31 ≤ at_ data 1 ∧ at_ data 1 ≤ 0x37 := by omega
      match data, h0, ht with
      | [], _, ht => simp [at_] at ht
      | [_], _, ht => simp [at_] at ht
      | p :: t :: rest, h0, ht =>
        refine ⟨_, GetInfoReader_ppm fp _ (by simp) h0 ht, ?_⟩
        simp only [PpmReader, File.Seek]
        exact ppmScan_formatIffSized p t rest (by simpa [at_] using ht)
    · exact ⟨_, GetInfoReader_xbm fp data h, xbmScan_formatIffSized _⟩
  · intro h r hr
    rw [GetInfoReader_xpm fp data h] at hr
    exact XpmReader_formatIffSized _ r hr
  · intro h
    obtain ⟨h0, h1⟩ := (sigJPEG_accepts data).mp h
    have hne : data ≠ [] := by
      intro hnil
      subst hnil
      simp [at_] at h0
    refine ⟨_, GetInfoReader_jpeg fp data hne h0 h1, ?_⟩
    simp only [JpegReader, File.Seek]
    exact (jpegLoop_same_or_jpeg data Info.zero _ 2 (Nat.le_refl _)).symm

/-- C6, as stated, fails: the six bytes of `P1 1 1` are fewer than 12 and come back
as (PBM, 1, 1). -/
theorem GetInfoReader_short_stream_classified :
    (bytesOf "P1 1 1").length < 12 ∧
      GetInfoReader panicParsers (File.ofBytes (bytesOf "P1 1 1"))
        = some ⟨ImageType.PBM, 1, 1⟩ ∧
      (⟨ImageType.PBM, 1, 1⟩ : Info) ≠ Info.zero := by
  decide

/-- C6, amended: a stream that holds fewer than 2 bytes in total makes
`GetInfoReader` return the zero record. -/
theorem GetInfoReader_fewer_than_two_bytes (fp : HeaderParsers) (data : List Nat)
    (h : data.length < 2) : GetInfoReader fp (File.ofBytes data) = some Info.zero := by
  match data, h with
  | [], _ => exact GetInfoReader_nil fp
  | [b], _ =>
    rw [GetInfoReader_unfold fp [b] (by simp)]
    apply dispatch_no_match
    intro sig hs
    rw [accepts_header [b] sig hs]
    simp only [signatureTable, List.mem_cons, List.mem_singleton, List.not_mem_nil, or_false] at hs
    rcases hs with hs | hs | hs | hs | hs | hs | hs | hs | hs | hs | hs | hs | hs | hs | hs <;>
      subst hs <;>
      simp [Signature.accepts, Signature.acceptsFrom, at_, sigJPEG, sigPNG, sigWEBP, sigGIF,
        sigBMP, sigNetpbm, sigXBM, sigXPM, sigTIFFbe, sigTIFFle, sigPSD, sigMNG, sigRGB, sigRAS,
        sigPCX]

/-- Witness of C6, amended: the one-byte stream `FF`. -/
theorem GetInfoReader_fewer_than_two_bytes_witness :
    [0xff].length < 2 ∧ GetInfoReader panicParsers (File.ofBytes [0xff]) = some Info.zero :=
  ⟨by decide, GetInfoReader_fewer_than_two_bytes panicParsers [0xff] (by decide)⟩

theorem readerReadNonSpace_token (tok : List Nat) (w : Nat) (rest : List Nat)
    (htok : ∀ b ∈ tok, isSpaceByte b = false) (hw : isSpaceByte w = true) :
    readerReadNonSpace (tok ++ w :: rest) = (w, rest) := by
  induction tok with
  | nil =>
    simp only [isSpaceByte, Bool.or_eq_true, beq_iff_eq] at hw
    simp only [List.nil_append, readerReadNonSpace]
    rw [if_pos (by omega)]
  | cons c tok ih =>
    have hc := htok c (List.mem_cons_self _ _)
    simp only [isSpaceByte, Bool.or_eq_false_iff, beq_eq_false_iff_ne, ne_eq] at hc
    simp only [List.cons_append, readerReadNonSpace]
    rw [if_neg (by omega)]
    exact ih (fun b hb => htok b (List.mem_cons_of_mem _ hb))

theorem readerReadNonSpaceSliceLoop_token (tok : List Nat) (w : Nat) (rest bytes : List Nat)
    (htok : ∀ b ∈ tok, isSpaceByte b = false) (hw : isSpaceByte w = true) :
    readerReadNonSpaceSliceLoop bytes (tok ++ w :: rest) = (bytes ++ tok, rest) := by
  induction tok generalizing bytes with
  | nil =>
    simp only [isSpaceByte, Bool.or_eq_true, beq_iff_eq] at hw
    simp only [List.nil_append, readerReadNonSpaceSliceLoop, List.append_nil]
    rw [if_pos (by omega)]
  | cons c tok ih =>
    have hc := htok c (List.mem_cons_self _ _)
    simp only [isSpaceByte, Bool.or_eq_false_iff, beq_eq_false_iff_ne, ne_eq] at hc
    simp only [List.cons_append, readerReadNonSpaceSliceLoop, List.append_eq]
    rw [if_neg (by omega), ih _ (fun b hb => htok b (List.mem_cons_of_mem _ hb))]
    simp

theorem xbmScan_short_token (s r1 r2 r3 r4 r5 r6 r7 p : List Nat) (b1 b2 b3 b4 w b6 : Nat)
    (h1 : readerReadNonSpace s = (b1, r1)) (h2 : readerSkipSpace r1 = (b2, r2))
    (h3 : readerReadNonSpace r2 = (b3, r3)) (h4 : readerSkipSpace r3 = (b4, r4))
    (h5 : parseUint32B b4 r4 = (w, r5)) (h6 : readerSkipSpace r5 = (b6, r6))
    (h7 : readerReadNonSpaceSliceLoop [] r6 = (p, r7)) (hp : p.length ≠ 7) :
    xbmScan s Info.zero = ⟨ImageType.Unknown, w, 0⟩ := by
  simp only [xbmScan, h1, h2, h3, h4, h5, h6, readerReadNonSpaceSlice, h7, Info.zero]
  rw [if_pos (fun h => hp h.1)]

/-- The defect behind C8 on every well-formed header: after the width, the scanner
consumes the `#` of the second `#define`, reads the 6-byte token `define`, and
returns with the width set, the height 0 and the format Unknown. -/
theorem xbmScan_wellformed_header (ws1 name1 ws2 dw ws3 rest : List Nat) (w4 : Nat)
    (hws1 : ws1 ≠ [] ∧ ∀ b ∈ ws1, isSpaceByte b = true)
    (hname1 : name1 ≠ [] ∧ ∀ b ∈ name1, isSpaceByte b = false)
    (hws2 : ws2 ≠ [] ∧ ∀ b ∈ ws2, isSpaceByte b = true)
    (hdw : dw ≠ [] ∧ ∀ b ∈ dw, isDigitByte b = true)
    (hws3 : ws3 ≠ [] ∧ ∀ b ∈ ws3, isSpaceByte b = true)
    (hw4 : isSpaceByte w4 = true)
    (hW : decimalValue dw < 2 ^ 32) :
    xbmScan (defineToken ++ (ws1 ++ (name1 ++ (ws2 ++ (dw ++ (ws3 ++ (defineToken ++ w4 :: rest)))))))
        Info.zero
      = ⟨ImageType.Unknown, decimalValue dw, 0⟩ := by
  obtain ⟨w1, ws1, rfl⟩ := List.exists_cons_of_ne_nil hws1.1
  obtain ⟨n1, name1, rfl⟩ := List.exists_cons_of_ne_nil hname1.1
  obtain ⟨w2, ws2, rfl⟩ := List.exists_cons_of_ne_nil hws2.1
  obtain ⟨d, ds, rfl⟩ := List.exists_cons_of_ne_nil hdw.1
  obtain ⟨w3, ws3, rfl⟩ := List.exists_cons_of_ne_nil hws3.1
  have hend : endsNumber (w3 :: (ws3 ++ 0x23 :: ([0x64, 0x65, 0x66, 0x69, 0x6e, 0x65] ++ w4 :: rest))) := by
    intro b hb
    simp only [List.head?_cons, Option.some.injEq] at hb
    subst hb
    exact isSpaceByte_ends _ (hws3.2 _ (List.mem_cons_self _ _))
  have e1 := readerReadNonSpace_token defineToken w1
    (ws1 ++ (n1 :: name1 ++ (w2 :: ws2 ++ (d :: ds ++ (w3 :: ws3 ++ (defineToken ++ w4 :: rest))))))
    (by decide) (hws1.2 _ (List.mem_cons_self _ _))
  have e2 := readerSkipSpace_spaces ws1 n1
    (name1 ++ (w2 :: ws2 ++ (d :: ds ++ (w3 :: ws3 ++ (defineToken ++ w4 :: rest)))))
    (fun b hb => hws1.2 b (List.mem_cons_of_mem _ hb)) (hname1.2 _ (List.mem_cons_self _ _))
  have e3 := readerReadNonSpace_token name1 w2
    (ws2 ++ (d :: ds ++ (w3 :: ws3 ++ (defineToken ++ w4 :: rest))))
    (fun b hb => hname1.2 b (List.mem_cons_of_mem _ hb)) (hws2.2 _ (List.mem_cons_self _ _))
  have e4 := readerSkipSpace_spaces ws2 d
    (ds ++ (w3 :: ws3 ++ (defineToken ++ w4 :: rest)))
    (fun b hb => hws2.2 b (List.mem_cons_of_mem _ hb))
    (isDigitByte_not_space d (hdw.2 _ (List.mem_cons_self _ _)))
  have e5 := parseUint32B_number d ds
    (w3 :: (ws3 ++ 0x23 :: ([0x64, 0x65, 0x66, 0x69, 0x6e, 0x65] ++ w4 :: rest))) hdw.2 hend hW
  have e6 := readerSkipSpace_spaces ws3 0x23 ([0x64, 0x65, 0x66, 0x69, 0x6e, 0x65] ++ w4 :: rest)
    (fun b hb => hws3.2 b (List.mem_cons_of_mem _ hb)) (by decide)
  have e7 := readerReadNonSpaceSliceLoop_token [0x64, 0x65, 0x66, 0x69, 0x6e, 0x65] w4 rest []
    (by decide) hw4
  simp only [List.cons_append, List.nil_append, defineToken, List.tail_cons] at e1 e2 e3 e4 e5 e6 e7
  simp only [defineToken, List.cons_append, List.nil_append]
  exact xbmScan_short_token _ _ _ _ _ _ _ _ _ _ _ _ _ _ _ e1 e2 e3 e4 e5 e6 e7 (by decide)

/-- The header `#define img_width 16\n#define img_height 8\n` is one of these. -/
theorem xbmScan_wellformed_header_example :
    xbmScan (bytesOf "#define img_width 16\n#define img_height 8\n") Info.zero
      = ⟨ImageType.Unknown, 16, 0⟩ :=
  xbmScan_wellformed_header (bytesOf " ") (bytesOf "img_width") (bytesOf " ") (bytesOf "16")
    (bytesOf "\n") (bytesOf "img_height 8\n") 32
    (by decide) (by decide) (by decide) (by decide) (by decide) (by decide) (by decide)

/-- C8: on the well-formed header `#define img_width 16\n#define img_height 8\n` the
code returns (Unknown, 16, 0) and not (XBM, 16, 8): the `readerSkipSpace` call before
`readerReadNonSpaceSlice` consumes the `#` of the second `#define`, so the token
read has 6 bytes and the 7-byte test fails. -/
theorem XbmReader_rejects_wellformed_header :
    XbmReader (File.ofBytes (bytesOf "#define img_width 16\n#define img_height 8\n")) Info.zero
        = ⟨ImageType.Unknown, 16, 0⟩ ∧
      GetInfoReader panicParsers
          (File.ofBytes (bytesOf "#define img_width 16\n#define img_height 8\n"))
        = some ⟨ImageType.Unknown, 16, 0⟩ := by
  decide

/-! ## XpmReader -/

theorem readerReadLineLoop_line (l more bytes : List Nat) (h : 10 ∉ l) :
    readerReadLineLoop bytes (l ++ 10 :: more) = (bytes ++ l ++ [10], more) := by
  induction l generalizing bytes with
  | nil => simp [readerReadLineLoop]
  | cons c l ih =>
    have hc : ¬ c = 10 := fun e => h (by simp [e])
    have hl : 10 ∉ l := fun e => h (List.mem_cons_of_mem _ e)
    simp only [List.cons_append, readerReadLineLoop, hc, if_false, List.append_eq]
    rw [ih _ hl]
    simp

theorem readerReadLineLoop_append (a r bytes : List Nat) (h : 10 ∉ a) :
    readerReadLineLoop bytes (a ++ r) = readerReadLineLoop (bytes ++ a) r := by
  induction a generalizing bytes with
  | nil => simp
  | cons c a ih =>
    have hc : ¬ c = 10 := fun e => h (by simp [e])
    have hl : 10 ∉ a := fun e => h (List.mem_cons_of_mem _ e)
    simp only [List.cons_append, readerReadLineLoop, hc, if_false, List.append_eq]
    rw [ih _ hl]
    simp

theorem readerReadLineLoop_acc (r bytes : List Nat) :
    (readerReadLineLoop bytes r).1 = bytes ++ (readerReadLineLoop [] r).1 := by
  induction r generalizing bytes with
  | nil => simp [readerReadLineLoop]
  | cons c r ih =>
    simp only [readerReadLineLoop]
    split
    · simp
    · rw [ih (bytes ++ [c]), ih ([] ++ [c])]
      simp

theorem readerReadLineLoop_head (r : List Nat) :
    (readerReadLineLoop [] r).1.head? = r.head? := by
  cases r with
  | nil => rfl
  | cons c r =>
    simp only [readerReadLineLoop]
    split
    · rfl
    · rw [readerReadLineLoop_acc]
      rfl

theorem takeWhile_append_stop (p : Nat → Bool) (a b : List Nat) (ha : ∀ x ∈ a, p x = true)
    (hb : ∀ x, b.head? = some x → p x = false) : (a ++ b).takeWhile p = a := by
  induction a with
  | nil =>
    cases b with
    | nil => rfl
    | cons x b => simp [List.takeWhile, hb x rfl]
  | cons x a ih =>
    simp only [List.cons_append, List.takeWhile, ha x (List.mem_cons_self _ _), List.append_eq]
    rw [ih (fun y hy => ha y (List.mem_cons_of_mem _ hy))]

theorem skipSpace_plainLine (l s : List Nat) (c : Nat) (h : firstNonSpace l = some c) :
    skipSpace (l ++ s) 0 < (l ++ s).length ∧ at_ (l ++ s) (skipSpace (l ++ s) 0) = c := by
  unfold skipSpace firstNonSpace at *
  simp only [List.drop_zero, Nat.zero_add]
  induction l with
  | nil => simp at h
  | cons x l ih =>
    by_cases hx : isSpaceByte x = true
    · simp only [List.dropWhile, hx] at h
      have := ih h
      simp only [List.cons_append, List.takeWhile, hx, List.length_cons, at_cons_succ,
        List.append_eq]
      exact ⟨by omega, this.2⟩
    · simp only [Bool.not_eq_true] at hx
      simp only [List.dropWhile, hx, List.head?_cons, Option.some.injEq] at h
      subst h
      simp only [List.cons_append, List.takeWhile, hx, List.length_nil, List.length_cons,
        at_cons_zero, List.append_eq]
      exact ⟨by omega, trivial⟩

theorem xpmLoop_plainLine (info : Info) (l more : List Nat) (h : plainLine l = true) :
    xpmLoop info (l ++ 10 :: more) = xpmLoop info more := by
  simp only [plainLine, Bool.and_eq_true, Bool.not_eq_true', List.contains_eq_any_beq,
    List.any_eq_false, beq_iff_eq] at h
  obtain ⟨hnl, hfirst⟩ := h
  have hmem : 10 ∉ l := fun e => hnl 10 e rfl
  cases hc : firstNonSpace l with
  | none => simp [hc] at hfirst
  | some c =>
    simp only [hc, bne_iff_ne, ne_eq] at hfirst
    have hline : readerReadLine (l ++ 10 :: more) = (l ++ [10], more) := by
      unfold readerReadLine
      rw [readerReadLineLoop_line l more [] hmem]
      simp
    obtain ⟨hlt, hat⟩ := skipSpace_plainLine l [10] c hc
    rw [xpmLoop_eq]
    simp only [hline, hlt, hat, if_true, ne_eq, hfirst, not_false_eq_true]
    rw [if_neg (by simp)]

theorem xpmLoop_joinLines (info : Info) (pre : List (List Nat)) (more : List Nat)
    (h : ∀ l ∈ pre, plainLine l = true) :
    xpmLoop info (joinLines pre ++ more) = xpmLoop info more := by
  induction pre with
  | nil => rfl
  | cons l pre ih =>
    simp only [joinLines, List.append_assoc, List.cons_append]
    rw [xpmLoop_plainLine info l _ (h l (List.mem_cons_self _ _))]
    exact ih (fun x hx => h x (List.mem_cons_of_mem _ hx))

theorem drop_leading (a b : List Nat) (n : Nat) (h : n = a.length) : (a ++ b).drop n = b := by
  subst h
  simp

theorem isBlankByte_space (b : Nat) (h : isBlankByte b = true) :
    isSpaceByte b = true ∧ isDigitByte b = false ∧ b ≠ 10 := by
  simp only [isBlankByte, Bool.or_eq_true, beq_iff_eq] at h
  simp only [isSpaceByte, isDigitByte, Bool.or_eq_true, beq_iff_eq, Bool.and_eq_false_iff,
    decide_eq_false_iff_not]
  omega

theorem isDigitByte_ne_newline (b : Nat) (h : isDigitByte b = true) : b ≠ 10 := by
  simp only [isDigitByte, Bool.and_eq_true, decide_eq_true_eq] at h
  omega

theorem xpmLoop_dimensionLine (info : Info) (ws0 dw ws1 dh rest : List Nat)
    (hws0 : ∀ b ∈ ws0, isBlankByte b = true)
    (hdw : ∀ b ∈ dw, isDigitByte b = true)
    (hws1 : ws1 ≠ [] ∧ ∀ b ∈ ws1, isBlankByte b = true)
    (hdh : dh ≠ [] ∧ ∀ b ∈ dh, isDigitByte b = true)
    (hrest : ∀ b, rest.head? = some b → isDigitByte b = false) :
    xpmLoop info (ws0 ++ 0x22 :: (dw ++ (ws1 ++ (dh ++ rest))))
      = some { info with Width := digitsValue dw, Height := digitsValue dh } := by
  obtain ⟨w, ws, rfl⟩ := List.exists_cons_of_ne_nil hws1.1
  obtain ⟨e, es, rfl⟩ := List.exists_cons_of_ne_nil hdh.1
  have hnl : 10 ∉ ws0 ++ 0x22 :: (dw ++ (w :: ws ++ e :: es)) := by
    intro hmem
    simp only [List.mem_append, List.mem_cons] at hmem
    rcases hmem with h | h | h | h | h
    · exact (isBlankByte_space _ (hws0 _ h)).2.2 rfl
    · omega
    · exact isDigitByte_ne_newline _ (hdw _ h) rfl
    · rcases h with h | h
      · exact (isBlankByte_space _ (hws1.2 _ (by simp [← h]))).2.2 rfl
      · exact (isBlankByte_space _ (hws1.2 _ (List.mem_cons_of_mem _ h))).2.2 rfl
    · rcases h with h | h
      · exact isDigitByte_ne_newline _ (hdh.2 _ (by simp [← h])) rfl
      · exact isDigitByte_ne_newline _ (hdh.2 _ (List.mem_cons_of_mem _ h)) rfl
  have hstream : ws0 ++ 0x22 :: (dw ++ (w :: ws ++ (e :: es ++ rest)))
      = (ws0 ++ 0x22 :: (dw ++ (w :: ws ++ e :: es))) ++ rest := by simp
  have hR := readerReadLineLoop_head rest
  have hline : (readerReadLine (ws0 ++ 0x22 :: (dw ++ (w :: ws ++ (e :: es ++ rest))))).1
      = ws0 ++ 0x22 :: (dw ++ (w :: ws ++ (e :: es ++ (readerReadLineLoop [] rest).1))) := by
    unfold readerReadLine
    rw [hstream, readerReadLineLoop_append _ _ _ hnl, readerReadLineLoop_acc]
    simp
  generalize (readerReadLineLoop [] rest).1 = R at hR hline
  have hRend : ∀ b, R.head? = some b → isDigitByte b = false := by
    rw [hR]; exact hrest
  have hskip0 : skipSpace (ws0 ++ 0x22 :: (dw ++ (w :: ws ++ (e :: es ++ R)))) 0 = ws0.length := by
    unfold skipSpace
    rw [List.drop_zero, takeWhile_append_stop isSpaceByte ws0 _
      (fun b hb => (isBlankByte_space b (hws0 b hb)).1)
      (fun b hb => by
        simp only [List.head?_cons, Option.some.injEq] at hb
        subst hb
        decide)]
    omega
  have hparseW : parseUint32 (ws0 ++ 0x22 :: (dw ++ (w :: ws ++ (e :: es ++ R)))) (ws0.length + 1)
      = (digitsValue dw, ws0.length + 1 + dw.length) := by
    unfold parseUint32
    have hd : (ws0 ++ 0x22 :: (dw ++ (w :: ws ++ (e :: es ++ R)))).drop (ws0.length + 1)
        = dw ++ (w :: ws ++ (e :: es ++ R)) := by
      rw [show ws0 ++ 0x22 :: (dw ++ (w :: ws ++ (e :: es ++ R)))
        = (ws0 ++ [0x22]) ++ (dw ++ (w :: ws ++ (e :: es ++ R))) by simp]
      exact drop_leading _ _ _ (by simp only [List.length_append, List.length_cons, List.length_nil])
    simp only [hd]
    rw [takeWhile_append_stop isDigitByte dw _ hdw (fun b hb => by
      simp only [List.cons_append, List.head?_cons, Option.some.injEq] at hb
      subst hb
      exact (isBlankByte_space _ (hws1.2 _ (List.mem_cons_self _ _))).2.1)]
  have hskip1 : skipSpace (ws0 ++ 0x22 :: (dw ++ (w :: ws ++ (e :: es ++ R))))
      (ws0.length + 1 + dw.length) = ws0.length + 1 + dw.length + (w :: ws).length := by
    unfold skipSpace
    have hd : (ws0 ++ 0x22 :: (dw ++ (w :: ws ++ (e :: es ++ R)))).drop
        (ws0.length + 1 + dw.length) = w :: ws ++ (e :: es ++ R) := by
      rw [show ws0 ++ 0x22 :: (dw ++ (w :: ws ++ (e :: es ++ R)))
        = (ws0 ++ [0x22] ++ dw) ++ (w :: ws ++ (e :: es ++ R)) by simp]
      exact drop_leading _ _ _ (by simp only [List.length_append, List.length_cons, List.length_nil])
    rw [hd, takeWhile_append_stop isSpaceByte (w :: ws) _
      (fun b hb => (isBlankByte_space b (hws1.2 b hb)).1)
      (fun b hb => by
        simp only [List.cons_append, List.head?_cons, Option.some.injEq] at hb
        subst hb
        exact isDigitByte_not_space _ (hdh.2 _ (List.mem_cons_self _ _)))]
  have hparseH : (parseUint32 (ws0 ++ 0x22 :: (dw ++ (w :: ws ++ (e :: es ++ R))))
      (ws0.length + 1 + dw.length + (w :: ws).length)).1 = digitsValue (e :: es) := by
    unfold parseUint32
    have hd : (ws0 ++ 0x22 :: (dw ++ (w :: ws ++ (e :: es ++ R)))).drop
        (ws0.length + 1 + dw.length + (w :: ws).length) = e :: es ++ R := by
      rw [show ws0 ++ 0x22 :: (dw ++ (w :: ws ++ (e :: es ++ R)))
        = (ws0 ++ [0x22] ++ dw ++ w :: ws) ++ (e :: es ++ R) by simp]
      exact drop_leading _ _ _ (by simp only [List.length_append, List.length_cons, List.length_nil])
    simp only [hd]
    rw [takeWhile_append_stop isDigitByte (e :: es) R hdh.2 hRend]
  rw [xpmLoop_eq]
  simp only [hline, hskip0, hparseW, hskip1, hparseH, at_append_length, at_cons_zero, ne_eq,
    not_true_eq_false, if_false]
  rw [if_neg (by simp), if_pos (by simp)]

/-- C9: for a stream of newline-terminated lines that each hold a non-whitespace
byte and do not start (after whitespace) with a double quote, followed by a line
whose first non-whitespace byte is a double quote, then the digits of `W`,
whitespace and the digits of `H`, with `1 ≤ W, H < 2^32`, `XpmReader` returns
(XPM, W, H).  Whitespace inside a line is space, tab or carriage return. -/
theorem XpmReader_dimension_line (pre : List (List Nat)) (ws0 dw ws1 dh rest : List Nat)
    (hpre : ∀ l ∈ pre, plainLine l = true)
    (hws0 : ∀ b ∈ ws0, isBlankByte b = true)
    (hdw : dw ≠ [] ∧ ∀ b ∈ dw, isDigitByte b = true)
    (hws1 : ws1 ≠ [] ∧ ∀ b ∈ ws1, isBlankByte b = true)
    (hdh : dh ≠ [] ∧ ∀ b ∈ dh, isDigitByte b = true)
    (hrest : ∀ b, rest.head? = some b → isDigitByte b = false)
    (hW : 1 ≤ decimalValue dw ∧ decimalValue dw < 2 ^ 32)
    (hH : 1 ≤ decimalValue dh ∧ decimalValue dh < 2 ^ 32) :
    XpmReader (File.ofBytes (joinLines pre ++ (ws0 ++ 0x22 :: (dw ++ (ws1 ++ (dh ++ rest))))))
        Info.zero
      = some ⟨ImageType.XPM, decimalValue dw, decimalValue dh⟩ := by
  unfold XpmReader
  simp only [File.ofBytes, File.Seek]
  rw [xpmLoop_joinLines Info.zero pre _ hpre,
    xpmLoop_dimensionLine Info.zero ws0 dw ws1 dh rest hws0 hdw.2 hws1 hdh hrest,
    digitsValue_eq dw hW.2, digitsValue_eq dh hH.2]
  simp only [Info.zero]
  rw [if_pos ⟨by omega, by omega⟩]

/-- Witness of C9: two comment-like lines, then the line `"16 8 2 1",`. -/
theorem XpmReader_dimension_line_witness :
    XpmReader (File.ofBytes (bytesOf "/* XPM */\nstatic char *x[] = \x7b\n\"16 8 2 1\",\n"))
        Info.zero
      = some ⟨ImageType.XPM, 16, 8⟩ :=
  XpmReader_dimension_line [bytesOf "/* XPM */", bytesOf "static char *x[] = \x7b"] []
    (bytesOf "16") (bytesOf " ") (bytesOf "8") (bytesOf " 2 1\",\n")
    (by decide) (by decide) (by decide) (by decide) (by decide) (by decide) (by decide)
    (by decide)

/-! ## TiffReader -/

theorem blit_full (n : Nat) (got : List Nat) (h : got.length = n) :
    blit (makeBytes n) 0 got = got := by
  simp [blit, makeBytes, h]

theorem tiffLoop_step (order : byteOrder) (data : List Nat) (pos m : Nat) (info : Info)
    (hfull : pos + 12 ≤ data.length) :
    tiffLoop order (m + 1) ⟨data, pos⟩ info =
      match tiffValue order (entryDatatype order ((data.drop pos).take 12))
          ((data.drop pos).take 12) with
      | none => info
      | some value =>
        if 0 < (if entryTag order ((data.drop pos).take 12) = 256 then { info with Width := value }
              else if entryTag order ((data.drop pos).take 12) = 257 then
                { info with Height := value }
              else info).Width ∧
            0 < (if entryTag order ((data.drop pos).take 12) = 256 then
                { info with Width := value }
              else if entryTag order ((data.drop pos).take 12) = 257 then
                { info with Height := value }
              else info).Height then
          { (if entryTag order ((data.drop pos).take 12) = 256 then { info with Width := value }
              else if entryTag order ((data.drop pos).take 12) = 257 then
                { info with Height := value }
              else info) with type := ImageType.TIFF }
        else
          tiffLoop order m ⟨data, pos + 12⟩
            (if entryTag order ((data.drop pos).take 12) = 256 then { info with Width := value }
              else if entryTag order ((data.drop pos).take 12) = 257 then
                { info with Height := value }
              else info) := by
  have hlen : ((data.drop pos).take 12).length = 12 := by
    simp only [List.length_take, List.length_drop]; omega
  simp only [tiffLoop, File.Read, blit_full 12 _ hlen, hlen, entryDatatype, entryTag, gt_iff_lt]

theorem tiffLoop_finds (order : byteOrder) (data : List Nat) (base a b w h : Nat)
    (hw : 0 < w) (hh : 0 < h)
    (hfull : base + 12 * (max a b + 1) ≤ data.length)
    (hta : entryTag order (entryAt data base a) = 256)
    (htb : entryTag order (entryAt data base b) = 257)
    (hagree : ∀ k, k < max a b + 1 → entryAgrees order (entryAt data base k) w h = true) :
    ∀ (j k m W H : Nat), k + j = max a b + 1 → j ≤ m →
      (W = 0 ∨ W = w) → (H = 0 ∨ H = h) → (a < k → W = w) → (b < k → H = h) →
      ¬ (0 < W ∧ 0 < H) →
      tiffLoop order m ⟨data, base + 12 * k⟩ ⟨ImageType.Unknown, W, H⟩
        = ⟨ImageType.TIFF, w, h⟩ := by
  intro j
  induction j with
  | zero =>
    intro k m W H hk _ _ _ hWa hHb hnot
    exfalso
    have h1 := hWa (by omega)
    have h2 := hHb (by omega)
    exact hnot ⟨by omega, by omega⟩
  | succ j ih =>
    intro k m W H hk hm hW hH hWa hHb hnot
    obtain ⟨m, rfl⟩ : ∃ m', m = m' + 1 := ⟨m - 1, by omega⟩
    have hkm : k < max a b + 1 := by omega
    have hag := hagree k hkm
    have hpos : base + 12 * k + 12 ≤ data.length := by
      have : 12 * k + 12 ≤ 12 * (max a b + 1) := by omega
      omega
    rw [tiffLoop_step order data _ m _ hpos]
    have hentry : (data.drop (base + 12 * k)).take 12 = entryAt data base k := rfl
    rw [hentry]
    unfold entryAgrees at hag
    cases hv : tiffValue order (entryDatatype order (entryAt data base k)) (entryAt data base k) with
    | none => simp [hv] at hag
    | some v =>
      simp only [hv, Bool.and_eq_true, Bool.or_eq_true, bne_iff_ne, ne_eq, beq_iff_eq] at hag
      obtain ⟨hag1, hag2⟩ := hag
      have hnext : base + 12 * k + 12 = base + 12 * (k + 1) := by omega
      simp only [hnext]
      by_cases ht1 : entryTag order (entryAt data base k) = 256
      · have hvw : v = w := by
          rcases hag1 with h1 | h1
          · exact absurd ht1 h1
          · exact h1
        have hkb : k ≠ b := by
          intro e
          rw [e, htb] at ht1
          omega
        simp only [ht1, if_true, hvw]
        by_cases hc : 0 < w ∧ 0 < H
        · rw [if_pos hc]
          have : H = h := by omega
          rw [this]
        · rw [if_neg hc]
          exact ih (k + 1) m w H (by omega) (by omega) (Or.inr rfl) hH (fun _ => rfl)
            (fun hlt => hHb (by omega)) hc
      · by_cases ht2 : entryTag order (entryAt data base k) = 257
        · have hvh : v = h := by
            rcases hag2 with h1 | h1
            · exact absurd ht2 h1
            · exact h1
          have hka : k ≠ a := by
            intro e
            rw [e, hta] at ht2
            omega
          simp only [ht2, Nat.reduceEqDiff, if_true, if_false, hvh]
          by_cases hc : 0 < W ∧ 0 < h
          · rw [if_pos hc]
            have : W = w := by omega
            rw [this]
          · rw [if_neg hc]
            exact ih (k + 1) m W h (by omega) (by omega) hW (Or.inr rfl)
              (fun hlt => hWa (by omega)) (fun _ => rfl) hc
        · have hka : k ≠ a := by
            intro e
            rw [e] at ht1
            exact ht1 hta
          have hkb : k ≠ b := by
            intro e
            rw [e] at ht2
            exact ht2 htb
          simp only [ht1, ht2, if_false]
          rw [if_neg hnot]
          exact ih (k + 1) m W H (by omega) (by omega) hW hH
            (fun hlt => hWa (by omega)) (fun hlt => hHb (by omega)) hnot

theorem slice_take_drop (data : List Nat) (o n lo hi : Nat) (h : hi ≤ n) :
    slice ((data.drop o).take n) lo hi = slice data (o + lo) (o + hi) := by
  unfold slice
  rw [List.drop_take, List.take_take, List.drop_drop]
  congr 1
  omega

/-- C10: the stream `tiffSample` is a little-endian directory in the layout of the
claim, the count 2 at the offset 8 of its header and at offset 10 the short entries
(256, 16) and (257, 8); `TiffReader` returns the zero record on it and not
(TIFF, 16, 8).  It reads 6 bytes at the offset and takes the count from bytes 2..3
of them, which hold the first tag, then reads the entries from offset 14 on, four
bytes into the first one. -/
theorem TiffReader_standard_layout_unknown :
    standardDirectory byteOrder.littleEndian tiffSample 0 1 16 8 ∧
      (tiffHead byteOrder.littleEndian tiffSample).1 = 256 ∧
      (tiffHead byteOrder.littleEndian tiffSample).2.pos = 14 ∧
      TiffReader (File.ofBytes tiffSample) Info.zero byteOrder.littleEndian = Info.zero ∧
      Info.zero ≠ ⟨ImageType.TIFF, 16, 8⟩ := by
  decide

/-- The layout on which `TiffReader` does find the dimensions, four bytes off the
one of the specification: the entry count in the 2 bytes at `o + 2` and 12-byte
entries from `o + 6` on, where entry `a` has tag 256 and value `w > 0`, entry `b`
has tag 257 and value `h > 0`, and every entry up to the later of the two has a
supported datatype and gives the two tags no other value. -/
theorem TiffReader_shifted_layout (order : byteOrder) (data : List Nat) (pos a b w h : Nat)
    (hdir : tiffDirectory order data 2 6 a b w h) :
    TiffReader ⟨data, pos⟩ Info.zero order = ⟨ImageType.TIFF, w, h⟩ := by
  obtain ⟨hlen, han, hbn, hfull, hta, htb, hw, hh, hagree⟩ := hdir
  have h8 : ((data.drop 0).take 8).length = 8 := by
    simp only [List.length_take, List.length_drop]; omega
  have h6 : ((data.drop (tiffOffset order data)).take 6).length = 6 := by
    simp only [List.length_take, List.length_drop]; omega
  have hoff : order.Uint32 (slice ((data.drop 0).take 8) 4 8) = tiffOffset order data := by
    rw [slice_take_drop data 0 8 4 8 (Nat.le_refl _)]
    simp [tiffOffset]
  have hcount : order.Uint16 (slice ((data.drop (tiffOffset order data)).take 6) 2 4)
      = order.Uint16 (slice data (tiffOffset order data + 2) (tiffOffset order data + 2 + 2)) := by
    rw [slice_take_drop data _ 6 2 4 (by omega)]
  simp only [TiffReader, File.Seek, File.Read, blit_full 8 _ h8, hoff, blit_full 6 _ h6, hcount, h6]
  have hloop := tiffLoop_finds order data (tiffOffset order data + 6) a b w h hw hh hfull hta htb
    hagree (max a b + 1) 0
    (order.Uint16 (slice data (tiffOffset order data + 2) (tiffOffset order data + 2 + 2)))
    0 0 (by omega) (by omega) (Or.inl rfl) (Or.inl rfl) (by omega) (by omega) (by omega)
  simpa [Info.zero] using hloop

/-- The stream `tiffShifted`, read in little-endian order, is such a stream. -/
theorem TiffReader_shifted_layout_example :
    tiffDirectory byteOrder.littleEndian tiffShifted 2 6 0 1 16 8 ∧
      TiffReader (File.ofBytes tiffShifted) Info.zero byteOrder.littleEndian
        = ⟨ImageType.TIFF, 16, 8⟩ :=
  ⟨by decide, TiffReader_shifted_layout byteOrder.littleEndian tiffShifted 0 0 1 16 8 (by decide)⟩

/-! ## parseUint32B -/

theorem dropWhile_head_not (p : Nat → Bool) (l : List Nat) :
    ∀ c, (l.dropWhile p).head? = some c → p c = false ∧ c ∈ l := by
  induction l with
  | nil => intro c h; simp at h
  | cons x l ih =>
    intro c h
    by_cases hx : p x = true
    · simp only [List.dropWhile, hx] at h
      exact ⟨(ih c h).1, List.mem_cons_of_mem _ (ih c h).2⟩
    · simp only [Bool.not_eq_true] at hx
      simp only [List.dropWhile, hx, List.head?_cons, Option.some.injEq] at h
      subst h
      exact ⟨hx, List.mem_cons_self _ _⟩

theorem takeWhile_all (p : Nat → Bool) (l : List Nat) : ∀ c ∈ l.takeWhile p, p c = true := by
  induction l with
  | nil => intro c h; simp at h
  | cons x l ih =>
    intro c h
    by_cases hx : p x = true
    · simp only [List.takeWhile, hx, List.mem_cons] at h
      rcases h with h | h
      · rw [h]; exact hx
      · exact ih c h
    · simp only [Bool.not_eq_true] at hx
      simp [List.takeWhile, hx] at h

/-- The function `parseUint32B` on a first byte that is a digit: the value of the
maximal digit run modulo `2^32`, and the stream after the byte that follows the run. -/
theorem parseUint32B_digit (b : Nat) (reader : List Nat) (hb : isDigitByte b = true)
    (hr : ∀ c ∈ reader, c < 256) :
    parseUint32B b reader
      = (decimalValue (b :: reader.takeWhile isDigitByte) % 2 ^ 32,
         (reader.dropWhile isDigitByte).tail) := by
  have hend : endsNumber (reader.dropWhile isDigitByte) := by
    intro c hc
    have := dropWhile_head_not isDigitByte reader c hc
    exact ⟨hr c this.2, this.1⟩
  have hsplit : reader = reader.takeWhile isDigitByte ++ reader.dropWhile isDigitByte :=
    (List.takeWhile_append_dropWhile isDigitByte reader).symm
  have hloop := parseUint32BLoop_digits (reader.takeWhile isDigitByte)
    (takeWhile_all isDigitByte reader) (reader.dropWhile isDigitByte) hend 0 b hb
  rw [← hsplit] at hloop
  have hmod := foldl_mod_eq (b :: reader.takeWhile isDigitByte) 0
  rw [Nat.zero_mod] at hmod
  unfold parseUint32B decimalValue
  rw [hloop, hmod]

theorem parseUint32B_not_digit (b : Nat) (reader : List Nat) (hb : b < 256)
    (hnd : isDigitByte b = false) : parseUint32B b reader = (0, reader) := by
  unfold parseUint32B
  exact parseUint32BLoop_stop 0 _ reader (digitOf_not_digit b hb hnd)

/-- C16: on bytes, `parseUint32B(b, reader)` returns the value of the maximal run of
decimal digits that starts with `b` and goes on in the stream, modulo `2^32`, hence
the written number when that is below `2^32`; it returns 0 when `b` is not a digit;
and a byte below `'0'`, the byte 0 of the end of stream included, gives an `x`
above 9 because the subtraction wraps. -/
theorem parseUint32B_value (b : Nat) (reader : List Nat) (hb : b < 256)
    (hr : ∀ c ∈ reader, c < 256) :
    (isDigitByte b = true →
      (parseUint32B b reader).1 = decimalValue (b :: reader.takeWhile isDigitByte) % 2 ^ 32) ∧
    (isDigitByte b = true → decimalValue (b :: reader.takeWhile isDigitByte) < 2 ^ 32 →
      (parseUint32B b reader).1 = decimalValue (b :: reader.takeWhile isDigitByte)) ∧
    (isDigitByte b = false → (parseUint32B b reader).1 = 0) ∧
    (∀ c, c < 48 → 9 < digitOf c) := by
  refine ⟨?_, ?_, ?_, ?_⟩
  · intro hd
    rw [parseUint32B_digit b reader hd hr]
  · intro hd hlt
    rw [parseUint32B_digit b reader hd hr]
    exact Nat.mod_eq_of_lt hlt
  · intro hnd
    rw [parseUint32B_not_digit b reader hb hnd]
  · intro c hc
    unfold digitOf
    omega

/-- Witness of C16: the first byte `1` before the stream `6\n#` gives 16. -/
theorem parseUint32B_value_witness :
    (parseUint32B 0x31 (bytesOf "6\n#")).1 = 16 :=
  (parseUint32B_value 0x31 (bytesOf "6\n#") (by decide) (by decide)).2.1 (by decide) (by decide)

/-- C17: on bytes, `parseUint32B(b, reader)` consumes nothing when `b` is not a digit;
when `b` is a digit it consumes the digits that follow and one byte more, the first
non-digit after the run, or nothing more at the end of the stream. -/
theorem parseUint32B_consumes (b : Nat) (reader : List Nat) (hb : b < 256)
    (hr : ∀ c ∈ reader, c < 256) :
    (isDigitByte b = false → (parseUint32B b reader).2 = reader) ∧
    (isDigitByte b = true →
      (parseUint32B b reader).2 = (reader.dropWhile isDigitByte).tail) ∧
    (isDigitByte b = true → ∀ ds c rest, (∀ d ∈ ds, isDigitByte d = true) →
      isDigitByte c = false → reader = ds ++ c :: rest → (parseUint32B b reader).2 = rest) ∧
    (isDigitByte b = true → (∀ d ∈ reader, isDigitByte d = true) →
      (parseUint32B b reader).2 = []) := by
  refine ⟨?_, ?_, ?_, ?_⟩
  · intro hnd
    rw [parseUint32B_not_digit b reader hb hnd]
  · intro hd
    rw [parseUint32B_digit b reader hd hr]
  · intro hd ds c rest hds hc hreader
    rw [parseUint32B_digit b reader hd hr, hreader, List.dropWhile_append_of_pos hds]
    simp [List.dropWhile, hc]
  · intro hd hall
    rw [parseUint32B_digit b reader hd hr]
    have : reader.dropWhile isDigitByte = [] := by
      rw [List.dropWhile_eq_nil_iff]
      exact hall
    rw [this]
    rfl

/-- Witness of C17: after the width `16` of an XBM header the newline is consumed,
and the next `readerSkipSpace` takes the `#` of `#define`. -/
theorem parseUint32B_consumes_witness :
    (parseUint32B 0x31 (bytesOf "6\n#define")).2 = bytesOf "#define" ∧
      readerSkipSpace (parseUint32B 0x31 (bytesOf "6\n#define")).2 = (0x23, bytesOf "define") :=
  ⟨(parseUint32B_consumes 0x31 (bytesOf "6\n#define") (by decide) (by decide)).2.2.1 (by decide)
      [0x36] 10 (bytesOf "#define") (by decide) (by decide) (by decide),
   by decide⟩

/-! ## readerReadLine -/

theorem readerReadLineLoop_no_newline (r bytes : List Nat) (h : 10 ∉ r) :
    readerReadLineLoop bytes r = (bytes ++ r, []) := by
  induction r generalizing bytes with
  | nil => simp [readerReadLineLoop]
  | cons c r ih =>
    have hc : ¬ c = 10 := fun e => h (by simp [e])
    have hr : 10 ∉ r := fun e => h (List.mem_cons_of_mem _ e)
    simp only [readerReadLineLoop, hc, if_false]
    rw [ih _ hr]
    simp

theorem readerReadLineLoop_concat (r bytes : List Nat) :
    (readerReadLineLoop bytes r).1 ++ (readerReadLineLoop bytes r).2 = bytes ++ r := by
  induction r generalizing bytes with
  | nil => simp [readerReadLineLoop]
  | cons c r ih =>
    simp only [readerReadLineLoop]
    split
    · simp
    · rw [ih]
      simp

theorem readerReadLine_nil_iff (reader : List Nat) :
    (readerReadLine reader).1 = [] ↔ reader = [] := by
  constructor
  · intro h
    cases reader with
    | nil => rfl
    | cons c r =>
      exfalso
      have hacc := readerReadLineLoop_acc r [c]
      unfold readerReadLine at h
      simp only [readerReadLineLoop] at h
      split at h
      · simp at h
      · rw [List.nil_append, hacc] at h
        simp at h
  · intro h
    subst h
    rfl

theorem readerLines_concat :
    ∀ (n : Nat) (reader : List Nat), reader.length ≤ n →
      concatBytes (readerLines n reader) = reader := by
  intro n
  induction n with
  | zero =>
    intro reader h
    have : reader = [] := List.eq_nil_of_length_eq_zero (by omega)
    subst this
    rfl
  | succ n ih =>
    intro reader h
    unfold readerLines
    by_cases hl : (readerReadLine reader).1.length = 0
    · rw [if_pos hl]
      have : (readerReadLine reader).1 = [] := List.eq_nil_of_length_eq_zero hl
      rw [(readerReadLine_nil_iff reader).mp this]
      rfl
    · rw [if_neg hl]
      have hshort := readerReadLine_shorter reader hl
      have hcat := readerReadLineLoop_concat reader []
      simp only [List.nil_append] at hcat
      simp only [concatBytes]
      rw [ih _ (by omega)]
      exact hcat

/-- C18: `readerReadLine` returns the bytes up to and including the first newline,
or all the bytes left when there is none; the line and the bytes left behind make
up the bytes that were there; the line is empty if and only if the reader is at
the end of the stream; and the lines of successive calls, concatenated, are the
bytes of the stream. -/
theorem readerReadLine_lines (reader : List Nat) :
    (10 ∈ reader → (readerReadLine reader).1 = reader.takeWhile (fun c => c != 10) ++ [10]) ∧
    (10 ∉ reader → (readerReadLine reader).1 = reader) ∧
    ((readerReadLine reader).1 ++ (readerReadLine reader).2 = reader) ∧
    ((readerReadLine reader).1 = [] ↔ reader = []) ∧
    (concatBytes (readerLines reader.length reader) = reader) := by
  refine ⟨?_, ?_, ?_, readerReadLine_nil_iff reader, readerLines_concat _ reader (Nat.le_refl _)⟩
  · intro hmem
    have hsplit := (List.takeWhile_append_dropWhile (fun c => c != 10) reader).symm
    have hnl : 10 ∉ reader.takeWhile (fun c => c != 10) := by
      intro h
      have := takeWhile_all (fun c => c != 10) reader 10 h
      simp at this
    cases hd : reader.dropWhile (fun c => c != 10) with
    | nil =>
      exfalso
      rw [List.dropWhile_eq_nil_iff] at hd
      have := hd 10 hmem
      simp at this
    | cons x more =>
      have hx := (dropWhile_head_not (fun c => c != 10) reader x (by rw [hd]; rfl)).1
      have hx10 : x = 10 := by simpa using hx
      subst hx10
      rw [hd] at hsplit
      unfold readerReadLine
      conv => lhs; rw [hsplit]
      rw [readerReadLineLoop_line _ more [] hnl]
      simp
  · intro hmem
    unfold readerReadLine
    rw [readerReadLineLoop_no_newline reader [] hmem]
    simp
  · have := readerReadLineLoop_concat reader []
    simpa [readerReadLine] using this

/-! ## The index `line[j]` of XpmReader -/

/-- C13: on a line of whitespace only the index `j = skipSpace(line, 0)` is the
length of the line, and the access `line[j]` is out of range: `XpmReader` panics on
the stream `\n`, and `GetInfoReader` on an XPM file with a blank line before the
dimension line. -/
theorem XpmReader_blank_line_panics :
    skipSpace (bytesOf "\n") 0 = (bytesOf "\n").length ∧
      XpmReader (File.ofBytes (bytesOf "\n")) Info.zero = none ∧
      GetInfoReader panicParsers (File.ofBytes (bytesOf "/* XPM */\n\n\"16 8 2 1\",\n")) = none := by
  refine ⟨by decide, ?_, ?_⟩
  · simp [XpmReader, File.ofBytes, File.Seek, bytesOf, xpmLoop, readerReadLine,
      readerReadLineLoop, skipSpace, isSpaceByte, at_]
  · rw [GetInfoReader_xpm panicParsers _ (by decide)]
    simp [XpmReader, File.Seek, bytesOf, xpmLoop, readerReadLine,
      readerReadLineLoop, skipSpace, isSpaceByte, at_]

theorem xpmLoop_blank_line (info : Info) (ws rest : List Nat)
    (hws : ∀ b ∈ ws, isBlankByte b = true) : xpmLoop info (ws ++ 10 :: rest) = none := by
  have hnl : 10 ∉ ws := fun h => (isBlankByte_space 10 (hws 10 h)).2.2 rfl
  have hline : readerReadLine (ws ++ 10 :: rest) = (ws ++ [10], rest) := by
    unfold readerReadLine
    rw [readerReadLineLoop_line ws rest [] hnl]
    simp
  have hskip : skipSpace (ws ++ [10]) 0 = (ws ++ [10]).length := by
    unfold skipSpace
    have h := takeWhile_append_stop isSpaceByte (ws ++ [10]) []
      (fun b hb => by
        rcases List.mem_append.mp hb with h | h
        · exact (isBlankByte_space b (hws b h)).1
        · simp only [List.mem_singleton] at h
          subst h
          decide)
      (fun b hb => by simp at hb)
    rw [List.append_nil] at h
    rw [List.drop_zero, h]
    omega
  rw [xpmLoop_eq]
  simp only [hline, hskip, Nat.lt_irrefl, if_false]
  rw [if_neg (by simp)]

/-! ## Termination of JpegReader -/

theorem jpegLoopFuel_short (fuel : Nat) (data : List Nat) (i : Nat) (info : Info)
    (h : data.length < i + 9) : jpegLoopFuel (fuel + 1) data i info = some info := by
  simp only [jpegLoopFuel, File.Read, List.length_take, List.length_drop]
  rw [if_pos]
  right
  omega

theorem jpegLoopFuel_step (fuel : Nat) (data : List Nat) (i : Nat) (info : Info)
    (h : i + 9 ≤ data.length) :
    jpegLoopFuel (fuel + 1) data i info =
      if at_ data i ≠ 0xff then some info
      else if 0xc0 ≤ at_ data (i + 1) ∧ at_ data (i + 1) ≤ 0xc3 then
        some { type := ImageType.JPEG
               Width := at_ data (i + 8) ||| (at_ data (i + 7) <<< 8)
               Height := at_ data (i + 6) ||| (at_ data (i + 5) <<< 8) }
      else
        jpegLoopFuel fuel data (i + (2 + (at_ data (i + 3) ||| (at_ data (i + 2) <<< 8)))) info := by
  have hlen : ((data.drop i).take 9).length = 9 := by
    simp only [List.length_take, List.length_drop]; omega
  have herr : ¬ (data.length ≤ i) := by omega
  simp only [jpegLoopFuel, File.Read, hlen, herr, decide_False, ne_eq, not_true_eq_false, or_self,
    if_false, Bool.false_eq_true]
  rw [at_read_full data i 9 0 (by omega) h, at_read_full data i 9 1 (by omega) h,
    at_read_full data i 9 2 (by omega) h, at_read_full data i 9 3 (by omega) h,
    at_read_full data i 9 5 (by omega) h, at_read_full data i 9 6 (by omega) h,
    at_read_full data i 9 7 (by omega) h, at_read_full data i 9 8 (by omega) h]
  rfl

theorem jpegLoopFuel_enough (data : List Nat) (info : Info) :
    ∀ (fuel i : Nat), data.length - i < fuel →
      jpegLoopFuel fuel data i info = some (jpegLoop data i info) := by
  intro fuel
  induction fuel with
  | zero => intro i h; omega
  | succ fuel ih =>
    intro i h
    by_cases hlen : i + 9 ≤ data.length
    · rw [jpegLoopFuel_step fuel data i info hlen, jpegLoop_step data i info hlen]
      split
      · rfl
      · split
        · rfl
        · exact ih _ (by omega)
    · rw [jpegLoopFuel_short fuel data i info (by omega), jpegLoop_short data i info (by omega)]

/-- C14: `JpegReader` terminates on every finite stream.  A pass of the loop that
does not return moves the offset from `i` to `i + 2 + L`, which is larger; a read
that starts less than 9 bytes before the end returns; and the loop started at
offset `i` returns within `len - i + 1` passes, whatever the declared lengths are,
so `JpegReader` returns within `len + 1` passes. -/
theorem JpegReader_terminates (file : File) (info : Info) :
    (∀ i, i + 9 ≤ file.data.length → at_ file.data i = 0xff →
      ¬ (0xc0 ≤ at_ file.data (i + 1) ∧ at_ file.data (i + 1) ≤ 0xc3) →
      jpegLoop file.data i info
          = jpegLoop file.data
              (i + (2 + (at_ file.data (i + 3) ||| (at_ file.data (i + 2) <<< 8)))) info ∧
        i < i + (2 + (at_ file.data (i + 3) ||| (at_ file.data (i + 2) <<< 8)))) ∧
    (∀ i, file.data.length < i + 9 → jpegLoop file.data i info = info) ∧
    (∀ fuel i, file.data.length - i < fuel →
      jpegLoopFuel fuel file.data i info = some (jpegLoop file.data i info)) ∧
    jpegLoopFuel (file.data.length + 1) file.data 2 info = some (JpegReader file info) := by
  refine ⟨?_, ?_, jpegLoopFuel_enough file.data info, ?_⟩
  · intro i hlen hff hcode
    refine ⟨?_, by omega⟩
    rw [jpegLoop_step file.data i info hlen]
    simp only [hff, ne_eq, not_true_eq_false, if_false, hcode]
  · intro i hshort
    exact jpegLoop_short file.data i info hshort
  · have hdata : (file.Seek 2).data = file.data := rfl
    unfold JpegReader
    rw [hdata]
    exact jpegLoopFuel_enough file.data info _ 2 (by omega)

/-- A stream whose first segment declares the length 0: the second pass reads at the
two length bytes, finds no `FF` there and returns the zero record. -/
theorem JpegReader_zero_lengths :
    jpegLoopFuel 5 [0xff, 0xd8, 0xff, 0xe0, 0, 0, 0xff, 0xe0, 0, 0, 0xff, 0xe0, 0, 0] 2 Info.zero
      = some Info.zero := by
  decide

/-! ## TiffReader on an unsupported datatype -/

theorem TiffReader_eq_tiffLoop (order : byteOrder) (data : List Nat) (pos : Nat) (info : Info) :
    TiffReader ⟨data, pos⟩ info order
      = tiffLoop order (tiffHead order data).1 (tiffHead order data).2 info := by
  simp only [TiffReader, tiffHead, File.Seek]

theorem tiffLoop_pass (order : byteOrder) (m : Nat) (file : File) (info : Info) :
    tiffLoop order (m + 1) file info =
      match tiffValue order (entryDatatype order (tiffEntry file)) (tiffEntry file) with
      | none => info
      | some value =>
        if 0 < (tiffStore order (tiffEntry file) value info).Width ∧
            0 < (tiffStore order (tiffEntry file) value info).Height then
          { tiffStore order (tiffEntry file) value info with type := ImageType.TIFF }
        else tiffLoop order m (file.Read 12).file (tiffStore order (tiffEntry file) value info) := by
  simp only [tiffLoop, tiffEntry, tiffStore, entryDatatype, entryTag, gt_iff_lt]

theorem tiffValue_none_iff (order : byteOrder) (datatype : Nat) (bytes : List Nat) :
    tiffValue order datatype bytes = none ↔ datatype ∉ [1, 3, 4, 6, 8, 9] := by
  unfold tiffValue
  simp only [List.mem_cons, List.mem_singleton, List.not_mem_nil, or_false, not_or]
  constructor
  · intro h
    split_ifs at h with h1 h2 h3
    omega
  · intro h
    rw [if_neg (by omega), if_neg (by omega), if_neg (by omega)]

theorem tiffStore_type (order : byteOrder) (bytes : List Nat) (value : Nat) (info : Info) :
    (tiffStore order bytes value info).type = info.type := by
  unfold tiffStore
  split_ifs <;> rfl

theorem tiffReaches_invariant (order : byteOrder) (data : List Nat) (m : Nat) (file : File)
    (info : Info) (h : tiffReaches order data m file info) :
    info.type = ImageType.Unknown ∧ ¬ (0 < info.Width ∧ 0 < info.Height) ∧
      tiffLoop order (tiffHead order data).1 (tiffHead order data).2 Info.zero
        = tiffLoop order m file info := by
  induction h with
  | start => exact ⟨rfl, by simp [Info.zero], rfl⟩
  | next m file info value _ hval hnot ih =>
    refine ⟨?_, hnot, ?_⟩
    · rw [tiffStore_type]; exact ih.1
    · rw [ih.2.2, tiffLoop_pass, hval]
      simp only [hnot, if_false]

/-- C12, as stated, fails: on `tiffUnsupported` the loop stores the width 16 from
the first entry, meets the datatype 0 in the second, and `TiffReader` returns
(Unknown, 16, 0), which is not the zero record. -/
theorem TiffReader_unsupported_keeps_width :
    tiffReaches byteOrder.littleEndian tiffUnsupported 1 ⟨tiffUnsupported, 26⟩
        ⟨ImageType.Unknown, 16, 0⟩ ∧
      entryDatatype byteOrder.littleEndian (tiffEntry ⟨tiffUnsupported, 26⟩) = 0 ∧
      TiffReader (File.ofBytes tiffUnsupported) Info.zero byteOrder.littleEndian
        = ⟨ImageType.Unknown, 16, 0⟩ ∧
      (⟨ImageType.Unknown, 16, 0⟩ : Info) ≠ Info.zero := by
  refine ⟨?_, by decide, by decide, by decide⟩
  exact tiffReaches.next 1 (tiffHead byteOrder.littleEndian tiffUnsupported).2 Info.zero 16
    tiffReaches.start (by decide) (by decide)

/-- C12, amended: when the loop of `TiffReader`, started on the zero record, meets an
entry whose datatype is not one of 1, 3, 4, 6, 8, 9 before both width and height
have been found, the walk stops and the record returned is the record as the
earlier entries left it: its format is Unknown and it does not hold both a width
and a height; a width or a height stored by an earlier entry stays in it. -/
theorem TiffReader_unsupported_datatype (order : byteOrder) (data : List Nat) (pos m : Nat)
    (file : File) (info : Info)
    (hreach : tiffReaches order data (m + 1) file info)
    (hbad : entryDatatype order (tiffEntry file) ∉ [1, 3, 4, 6, 8, 9]) :
    TiffReader ⟨data, pos⟩ Info.zero order = info ∧
      info.type = ImageType.Unknown ∧
      ¬ (0 < info.Width ∧ 0 < info.Height) := by
  have hinv := tiffReaches_invariant order data (m + 1) file info hreach
  have hnone := (tiffValue_none_iff order _ (tiffEntry file)).mpr hbad
  have hret : TiffReader ⟨data, pos⟩ Info.zero order = info := by
    rw [TiffReader_eq_tiffLoop, hinv.2.2, tiffLoop_pass, hnone]
  exact ⟨hret, hinv.1, hinv.2.1⟩

/-- Witness of C12, amended: on `tiffSample` the first entry that the loop reads has
the datatype 0, nothing was stored before it, and the zero record comes back. -/
theorem TiffReader_unsupported_datatype_witness :
    TiffReader (File.ofBytes tiffSample) Info.zero byteOrder.littleEndian = Info.zero :=
  (TiffReader_unsupported_datatype byteOrder.littleEndian tiffSample 0 255
    (tiffHead byteOrder.littleEndian tiffSample).2 Info.zero tiffReaches.start (by decide)).1

/-! ## Byte-order symmetry of TiffReader -/

theorem Uint16_enc16 (order : byteOrder) (v : Nat) (h : v < 65536) (rest : List Nat) :
    order.Uint16 (enc16 order v ++ rest) = v := by
  cases order <;>
    simp only [enc16, byteOrder.Uint16, List.cons_append, List.nil_append, at_cons_zero,
      at_cons_succ] <;>
    omega

theorem Uint32_enc32 (order : byteOrder) (v : Nat) (h : v < 4294967296) (rest : List Nat) :
    order.Uint32 (enc32 order v ++ rest) = v := by
  cases order <;>
    simp only [enc32, byteOrder.Uint32, List.cons_append, List.nil_append, at_cons_zero,
      at_cons_succ] <;>
    omega

theorem enc16_length (order : byteOrder) (v : Nat) : (enc16 order v).length = 2 := by
  cases order <;> rfl

theorem enc32_length (order : byteOrder) (v : Nat) : (enc32 order v).length = 4 := by
  cases order <;> rfl

theorem encodeEntry_length (order : byteOrder) (e : TiffField) (h : e.wellFormed) :
    (encodeEntry order e).length = 12 := by
  obtain ⟨_, _, hs, _⟩ := h
  unfold encodeEntry
  split_ifs <;>
    simp only [List.length_append, enc16_length, enc32_length, hs, List.length_cons,
      List.length_nil]

theorem slice_middle (a b rest : List Nat) (n : Nat) (ha : a.length = n) (hi : Nat)
    (hb : n + b.length = hi) : slice (a ++ (b ++ rest)) n hi = b := by
  unfold slice
  rw [drop_leading a (b ++ rest) n ha.symm]
  have : hi - n = b.length := by omega
  rw [this]
  simp

theorem encodeEntry_tag (order : byteOrder) (e : TiffField) (h : e.wellFormed) :
    entryTag order (encodeEntry order e) = e.tag := by
  unfold entryTag encodeEntry
  have hs := slice_middle [] (enc16 order e.tag) (enc16 order e.datatype ++ (e.skipped ++
    (if e.datatype = 3 ∨ e.datatype = 8 then enc16 order e.value ++ [0, 0]
     else enc32 order e.value))) 0 rfl 2 (by rw [enc16_length])
  rw [List.nil_append] at hs
  rw [hs]
  have := Uint16_enc16 order e.tag h.1 []
  rwa [List.append_nil] at this

theorem encodeEntry_datatype (order : byteOrder) (e : TiffField) (h : e.wellFormed) :
    entryDatatype order (encodeEntry order e) = e.datatype := by
  unfold entryDatatype encodeEntry
  rw [slice_middle (enc16 order e.tag) (enc16 order e.datatype) _ 2 (enc16_length _ _) 4
    (by rw [enc16_length])]
  have hd : e.datatype < 65536 := by
    have := h.2.1
    omega
  have := Uint16_enc16 order e.datatype hd []
  rwa [List.append_nil] at this

theorem encodeEntry_value (order : byteOrder) (e : TiffField) (h : e.wellFormed) :
    tiffValue order e.datatype (encodeEntry order e) = some e.value := by
  obtain ⟨_, hdt, hs, hv⟩ := h
  have hpre : (enc16 order e.tag ++ (enc16 order e.datatype ++ e.skipped)).length = 8 := by
    simp only [List.length_append, enc16_length, hs]
  unfold tiffValue encodeEntry
  by_cases hshort : e.datatype = 3 ∨ e.datatype = 8
  · rw [if_pos hshort] at hv
    rw [if_neg (by omega), if_pos hshort, if_pos hshort]
    have hshape : enc16 order e.tag ++ (enc16 order e.datatype ++ (e.skipped ++
        (enc16 order e.value ++ [0, 0])))
        = (enc16 order e.tag ++ (enc16 order e.datatype ++ e.skipped)) ++
          (enc16 order e.value ++ [0, 0]) := by simp
    rw [hshape, slice_middle _ (enc16 order e.value) [0, 0] 8 hpre 10 (by rw [enc16_length])]
    have := Uint16_enc16 order e.value hv []
    rw [List.append_nil] at this
    rw [this]
  · rw [if_neg hshort] at hv
    rw [if_neg (by omega), if_neg hshort, if_pos (by omega), if_neg hshort]
    have hshape : enc16 order e.tag ++ (enc16 order e.datatype ++ (e.skipped ++
        enc32 order e.value))
        = (enc16 order e.tag ++ (enc16 order e.datatype ++ e.skipped)) ++
          (enc32 order e.value ++ []) := by simp
    rw [hshape, slice_middle _ (enc32 order e.value) [] 8 hpre 12 (by rw [enc32_length])]
    have := Uint32_enc32 order e.value hv []
    rw [List.append_nil] at this
    rw [this]

/-- The loop of `TiffReader` on the encoded entries does what the walk over the
logical entries does, in either byte order. -/
theorem tiffLoop_encodeEntries (order : byteOrder) (es : List TiffField)
    (hes : ∀ e ∈ es, e.wellFormed) (pre : List Nat) (info : Info) :
    tiffLoop order es.length ⟨pre ++ encodeEntries order es, pre.length⟩ info
      = tiffWalk es info := by
  induction es generalizing pre info with
  | nil => rfl
  | cons e es ih =>
    have he := hes e (List.mem_cons_self _ _)
    have hlen := encodeEntry_length order e he
    have hentry : ((pre ++ encodeEntries order (e :: es)).drop pre.length).take 12
        = encodeEntry order e := by
      rw [drop_leading pre _ _ rfl]
      simp only [encodeEntries]
      rw [List.take_left' hlen]
    have hfull : pre.length + 12 ≤ (pre ++ encodeEntries order (e :: es)).length := by
      simp only [encodeEntries, List.length_append, hlen]
      omega
    simp only [List.length_cons]
    rw [tiffLoop_step order _ pre.length es.length info hfull, hentry,
      encodeEntry_datatype order e he, encodeEntry_value order e he,
      encodeEntry_tag order e he]
    have hnext : (⟨pre ++ encodeEntries order (e :: es), pre.length + 12⟩ : File)
        = ⟨(pre ++ encodeEntry order e) ++ encodeEntries order es,
            (pre ++ encodeEntry order e).length⟩ := by
      simp only [encodeEntries, List.append_assoc, List.length_append, hlen]
    simp only [hnext, tiffWalk]
    split_ifs <;>
      first
      | rfl
      | exact ih (fun x hx => hes x (List.mem_cons_of_mem _ hx)) _ _

theorem mark_length (order : byteOrder) :
    (orderMark order).length = 2 := by
  cases order <;> rfl

theorem tiffHead_encodeTiff (order : byteOrder) (gap lead trail : List Nat)
    (es : List TiffField) (hgap : 8 + gap.length < 4294967296) (hlead : lead.length = 2)
    (htrail : trail.length = 2) (hn : es.length < 65536) :
    tiffHead order (encodeTiff order gap lead trail es)
      = (es.length, ⟨encodeTiff order gap lead trail es, 8 + gap.length + 6⟩) := by
  have hlen : (encodeTiff order gap lead trail es).length
      = 8 + gap.length + 6 + (encodeEntries order es).length := by
    simp only [encodeTiff, List.length_append, mark_length, enc16_length, enc32_length, hlead,
      htrail]
    omega
  have h8 : (((encodeTiff order gap lead trail es).drop 0).take 8).length = 8 := by
    simp only [List.length_take, List.length_drop, hlen]; omega
  have h6 : (((encodeTiff order gap lead trail es).drop (8 + gap.length)).take 6).length = 6 := by
    simp only [List.length_take, List.length_drop, hlen]; omega
  have hoff : order.Uint32 (slice (((encodeTiff order gap lead trail es).drop 0).take 8) 4 8)
      = 8 + gap.length := by
    rw [slice_take_drop _ 0 8 4 8 (Nat.le_refl _)]
    have hshape : encodeTiff order gap lead trail es
        = (orderMark order ++ enc16 order 42) ++
          (enc32 order (8 + gap.length) ++ (gap ++ (lead ++
            (enc16 order es.length ++ (trail ++ encodeEntries order es))))) := by
      simp only [encodeTiff, List.append_assoc]
    rw [hshape, slice_middle _ (enc32 order (8 + gap.length)) _ (0 + 4)
      (by simp only [List.length_append, mark_length, enc16_length]) (0 + 8)
      (by rw [enc32_length])]
    have := Uint32_enc32 order (8 + gap.length) hgap []
    rwa [List.append_nil] at this
  have hcount : order.Uint16
      (slice (((encodeTiff order gap lead trail es).drop (8 + gap.length)).take 6) 2 4)
      = es.length := by
    rw [slice_take_drop _ _ 6 2 4 (by omega)]
    have hshape : encodeTiff order gap lead trail es
        = (orderMark order ++ (enc16 order 42 ++
              (enc32 order (8 + gap.length) ++ (gap ++ lead)))) ++
          (enc16 order es.length ++ (trail ++ encodeEntries order es)) := by
      simp only [encodeTiff, List.append_assoc]
    rw [hshape, slice_middle _ (enc16 order es.length) _ (8 + gap.length + 2)
      (by simp only [List.length_append, mark_length, enc16_length, enc32_length, hlead]; omega)
      (8 + gap.length + 4) (by rw [enc16_length])]
    have := Uint16_enc16 order es.length hn []
    rwa [List.append_nil] at this
  simp only [tiffHead, File.Seek, File.Read, blit_full 8 _ h8, hoff, blit_full 6 _ h6, hcount, h6]

/-- The record that `TiffReader` returns on the encoding of a directory, in either
byte order, is the one of the walk over the logical entries. -/
theorem TiffReader_encodeTiff (order : byteOrder) (gap lead trail : List Nat)
    (es : List TiffField) (hgap : 8 + gap.length < 4294967296) (hlead : lead.length = 2)
    (htrail : trail.length = 2) (hn : es.length < 65536) (hes : ∀ e ∈ es, e.wellFormed)
    (pos : Nat) (info : Info) :
    TiffReader ⟨encodeTiff order gap lead trail es, pos⟩ info order = tiffWalk es info := by
  rw [TiffReader_eq_tiffLoop, tiffHead_encodeTiff order gap lead trail es hgap hlead htrail hn]
  have hshape : encodeTiff order gap lead trail es
      = (orderMark order ++ (enc16 order 42 ++
            (enc32 order (8 + gap.length) ++ (gap ++ (lead ++
              (enc16 order es.length ++ trail)))))) ++ encodeEntries order es := by
    simp only [encodeTiff, List.append_assoc]
  have hpre : (orderMark order ++ (enc16 order 42 ++
            (enc32 order (8 + gap.length) ++ (gap ++ (lead ++
              (enc16 order es.length ++ trail)))))).length = 8 + gap.length + 6 := by
    simp only [List.length_append, mark_length, enc16_length, enc32_length, hlead, htrail]
    omega
  simp only []
  rw [hshape, ← hpre]
  exact tiffLoop_encodeEntries order es hes _ info

/-- On the layout that `TiffReader` reads (`encodeTiff`), the big-endian and the
little-endian stream of the same fields give the same record, the one of the walk
over the logical entries: the decoding of the fields itself is symmetric. -/
theorem TiffReader_shifted_symmetry (gap lead trail : List Nat) (es : List TiffField)
    (hgap : 8 + gap.length < 4294967296) (hlead : lead.length = 2) (htrail : trail.length = 2)
    (hn : es.length < 65536) (hes : ∀ e ∈ es, e.wellFormed) :
    TiffReader (File.ofBytes (encodeTiff byteOrder.bigEndian gap lead trail es)) Info.zero
        byteOrder.bigEndian
      = TiffReader (File.ofBytes (encodeTiff byteOrder.littleEndian gap lead trail es)) Info.zero
        byteOrder.littleEndian ∧
    TiffReader (File.ofBytes (encodeTiff byteOrder.bigEndian gap lead trail es)) Info.zero
        byteOrder.bigEndian = tiffWalk es Info.zero := by
  have hb := TiffReader_encodeTiff byteOrder.bigEndian gap lead trail es hgap hlead htrail hn hes
    0 Info.zero
  have hl := TiffReader_encodeTiff byteOrder.littleEndian gap lead trail es hgap hlead htrail hn
    hes 0 Info.zero
  exact ⟨hb.trans hl.symm, hb⟩

/-- On that layout the entries (254, long, 0), (256, short, 640), (257, long, 480)
behind a gap of two bytes give (TIFF, 640, 480) in both byte orders. -/
theorem TiffReader_shifted_symmetry_example :
    TiffReader (File.ofBytes (encodeTiff byteOrder.bigEndian [7, 7] [0, 0] [0, 0]
        [⟨254, 4, [0, 0, 0, 1], 0⟩, ⟨256, 3, [0, 0, 0, 1], 640⟩, ⟨257, 4, [0, 0, 0, 1], 480⟩]))
        Info.zero byteOrder.bigEndian
      = TiffReader (File.ofBytes (encodeTiff byteOrder.littleEndian [7, 7] [0, 0] [0, 0]
        [⟨254, 4, [0, 0, 0, 1], 0⟩, ⟨256, 3, [0, 0, 0, 1], 640⟩, ⟨257, 4, [0, 0, 0, 1], 480⟩]))
        Info.zero byteOrder.littleEndian ∧
    TiffReader (File.ofBytes (encodeTiff byteOrder.bigEndian [7, 7] [0, 0] [0, 0]
        [⟨254, 4, [0, 0, 0, 1], 0⟩, ⟨256, 3, [0, 0, 0, 1], 640⟩, ⟨257, 4, [0, 0, 0, 1], 480⟩]))
        Info.zero byteOrder.bigEndian = ⟨ImageType.TIFF, 640, 480⟩ :=
  TiffReader_shifted_symmetry [7, 7] [0, 0] [0, 0]
    [⟨254, 4, [0, 0, 0, 1], 0⟩, ⟨256, 3, [0, 0, 0, 1], 640⟩, ⟨257, 4, [0, 0, 0, 1], 480⟩]
    (by decide) (by decide) (by decide) (by decide) (by decide)

/-! ## Mutual exclusion of the signatures -/

/-- The `switch` of `GetInfoReader` is the first-match dispatch over the table of
its branches. -/
theorem dispatch_eq_runFirst (fp : HeaderParsers) (p : List Nat) (file : File) (info : Info) :
    dispatch fp p file info = runFirst fp p file info branchTable := by
  simp only [branchTable, runFirst, dispatch, sigJPEG_accepts, sigPNG_accepts, sigWEBP_accepts, sigGIF_accepts, sigBMP_accepts, sigNetpbm_accepts, sigXBM_accepts, sigXPM_accepts, sigTIFFbe_accepts, sigTIFFle_accepts, sigPSD_accepts, sigMNG_accepts, sigRGB_accepts, sigRAS_accepts, sigPCX_accepts]
  by_cases hsigJPEG : at_ p 0 = 0xff
  · simp only [hsigJPEG, Nat.reduceEqDiff, false_and, true_and, if_false, if_true]
  by_cases hsigPNG : at_ p 0 = 0x89
  · simp only [hsigPNG, Nat.reduceEqDiff, false_and, true_and, if_false, if_true]
  by_cases hsigWEBP : at_ p 0 = 0x52
  · simp only [hsigWEBP, Nat.reduceEqDiff, false_and, true_and, if_false, if_true]
  by_cases hsigGIF : at_ p 0 = 0x47
  · simp only [hsigGIF, Nat.reduceEqDiff, false_and, true_and, if_false, if_true]
  by_cases hsigBMP : at_ p 0 = 0x42
  · simp only [hsigBMP, Nat.reduceEqDiff, false_and, true_and, if_false, if_true]
  by_cases hsigNetpbm : at_ p 0 = 0x50
  · simp only [hsigNetpbm, Nat.reduceEqDiff, false_and, true_and, if_false, if_true]
  by_cases hsigXBM : at_ p 0 = 0x23
  · simp only [hsigXBM, Nat.reduceEqDiff, false_and, true_and, if_false, if_true]
  by_cases hsigXPM : at_ p 0 = 0x2f
  · simp only [hsigXPM, Nat.reduceEqDiff, false_and, true_and, if_false, if_true]
  by_cases hsigTIFFbe : at_ p 0 = 0x4d
  · simp only [hsigTIFFbe, Nat.reduceEqDiff, false_and, true_and, if_false, if_true]
  by_cases hsigTIFFle : at_ p 0 = 0x49
  · simp only [hsigTIFFle, Nat.reduceEqDiff, false_and, true_and, if_false, if_true]
  by_cases hsigPSD : at_ p 0 = 0x38
  · simp only [hsigPSD, Nat.reduceEqDiff, false_and, true_and, if_false, if_true]
  by_cases hsigMNG : at_ p 0 = 0x8a
  · simp only [hsigMNG, Nat.reduceEqDiff, false_and, true_and, if_false, if_true]
  by_cases hsigRGB : at_ p 0 = 0x01
  · simp only [hsigRGB, Nat.reduceEqDiff, false_and, true_and, if_false, if_true]
  by_cases hsigRAS : at_ p 0 = 0x59
  · simp only [hsigRAS, Nat.reduceEqDiff, false_and, true_and, if_false, if_true]
  by_cases hsigPCX : at_ p 0 = 0x0a
  · simp only [hsigPCX, Nat.reduceEqDiff, false_and, true_and, if_false, if_true]
  simp only [hsigJPEG, hsigPNG, hsigWEBP, hsigGIF, hsigBMP, hsigNetpbm, hsigXBM, hsigXPM, hsigTIFFbe, hsigTIFFle, hsigPSD, hsigMNG, hsigRGB, hsigRAS, hsigPCX, false_and, if_false]

theorem branchTable_signatures : branchTable.map Prod.fst = signatureTable := rfl

theorem signatureTable_nodup : signatureTable.Nodup := by decide

theorem accepts_first_byte (c : Nat) (rest : Signature) (p : List Nat)
    (h : Signature.accepts ([c] :: rest) p = true) : at_ p 0 = c := by
  simp only [Signature.accepts, Signature.acceptsFrom, List.isEmpty_cons, Bool.false_or,
    List.contains_cons, List.contains_nil, Bool.or_false, Bool.and_eq_true, beq_iff_eq] at h
  exact h.1

/-- Every signature of the table fixes the byte at offset 0, and no two of them fix
the same one. -/
theorem signature_first_byte (p : List Nat) (sig : Signature) (hs : sig ∈ signatureTable)
    (h : sig.accepts p = true) : sig.head? = some [at_ p 0] := by
  have hshape : ∀ s ∈ signatureTable, s = [(s.headD []).headD 0] :: s.tail := by decide
  have hsig := hshape sig hs
  rw [hsig] at h
  have := accepts_first_byte _ _ p h
  rw [hsig, this]
  rfl

theorem signatures_exclusive (p : List Nat) :
    ∀ s1 ∈ signatureTable, ∀ s2 ∈ signatureTable,
      s1.accepts p = true → s2.accepts p = true → s1 = s2 := by
  have hdistinct : ∀ s1 ∈ signatureTable, ∀ s2 ∈ signatureTable,
      s1.head? = s2.head? → s1 = s2 := by decide
  intro s1 h1 s2 h2 a1 a2
  apply hdistinct s1 h1 s2 h2
  rw [signature_first_byte p s1 h1 a1, signature_first_byte p s2 h2 a2]

theorem branches_exclusive (p : List Nat) :
    ∀ a ∈ branchTable, ∀ b ∈ branchTable,
      a.1.accepts p = true → b.1.accepts p = true → a = b := by
  intro a ha b hb h1 h2
  have hnodup : (branchTable.map Prod.fst).Nodup := by
    rw [branchTable_signatures]; exact signatureTable_nodup
  have hma : a.1 ∈ signatureTable := by
    rw [← branchTable_signatures]; exact List.mem_map_of_mem _ ha
  have hmb : b.1 ∈ signatureTable := by
    rw [← branchTable_signatures]; exact List.mem_map_of_mem _ hb
  exact List.inj_on_of_nodup_map hnodup ha hb (signatures_exclusive p a.1 hma b.1 hmb h1 h2)

theorem runFirst_perm (fp : HeaderParsers) (p : List Nat) (file : File) (info : Info)
    (l1 l2 : List (Signature × BranchAction)) (hperm : l1.Perm l2)
    (hex : ∀ a ∈ l1, ∀ b ∈ l1, a.1.accepts p = true → b.1.accepts p = true → a = b) :
    runFirst fp p file info l1 = runFirst fp p file info l2 := by
  induction hperm with
  | nil => rfl
  | cons x _ ih =>
    simp only [runFirst]
    rw [ih (fun a ha b hb => hex a (List.mem_cons_of_mem _ ha) b (List.mem_cons_of_mem _ hb))]
  | swap x y l =>
    simp only [runFirst]
    by_cases hx : x.1.accepts p = true
    · by_cases hy : y.1.accepts p = true
      · have : y = x := hex y (List.mem_cons_self _ _) x
          (List.mem_cons_of_mem _ (List.mem_cons_self _ _)) hy hx
        rw [this]
      · simp only [hx, hy, if_true, if_false, Bool.false_eq_true]
    · simp only [hx, if_false, Bool.false_eq_true]
  | trans h12 _ ih1 ih2 =>
    rw [ih1 hex]
    exact ih2 (fun a ha b hb => hex a (h12.mem_iff.mpr ha) b (h12.mem_iff.mpr hb))

/-- C15: no buffer is accepted by two signatures of the table, so at most one branch
of the dispatch has its test satisfied; and testing the branches in any other order
gives the result of the `switch` of `GetInfoReader`. -/
theorem dispatch_signatures_exclusive (fp : HeaderParsers) (p : List Nat) (file : File)
    (info : Info) :
    (∀ s1 ∈ signatureTable, ∀ s2 ∈ signatureTable,
      s1.accepts p = true → s2.accepts p = true → s1 = s2) ∧
    (∀ a ∈ branchTable, ∀ b ∈ branchTable,
      a.1.accepts p = true → b.1.accepts p = true → a = b) ∧
    (∀ branches : List (Signature × BranchAction), branches.Perm branchTable →
      runFirst fp p file info branches = dispatch fp p file info) := by
  refine ⟨signatures_exclusive p, branches_exclusive p, ?_⟩
  intro branches hperm
  rw [dispatch_eq_runFirst]
  exact (runFirst_perm fp p file info branchTable branches hperm.symm
    (branches_exclusive p)).symm

/-- C11: the big-endian and the little-endian stream of the same fields, the three
entries of `asymmetricEntries` in a directory at offset 8, are both directories in
the layout of the specification with width 640 and height 480.  `TiffReader` returns
(TIFF, 257, 300) on the big-endian one and the zero record on the little-endian
one: it reads its entries four bytes into the real ones, so it decodes the halves
of the 32-bit number of values as tag and datatype, and these halves swap with the
byte order. -/
theorem TiffReader_byte_order_asymmetry :
    standardDirectory byteOrder.bigEndian
        (encodeStandardTiff byteOrder.bigEndian [] asymmetricEntries) 0 1 640 480 ∧
      standardDirectory byteOrder.littleEndian
        (encodeStandardTiff byteOrder.littleEndian [] asymmetricEntries) 0 1 640 480 ∧
      TiffReader (File.ofBytes (encodeStandardTiff byteOrder.bigEndian [] asymmetricEntries))
          Info.zero byteOrder.bigEndian = ⟨ImageType.TIFF, 257, 300⟩ ∧
      TiffReader (File.ofBytes (encodeStandardTiff byteOrder.littleEndian [] asymmetricEntries))
          Info.zero byteOrder.littleEndian = Info.zero ∧
      (⟨ImageType.TIFF, 257, 300⟩ : Info) ≠ Info.zero := by
  decide

end FastImage
